import Mathlib

/-!
# go-yelp-v3: option layer and request pipeline

A shallow embedding of the Go package `yelp` (files `coordinate_options.go`,
`location_options.go`, `business.go`, `yelp.go`) together with the properties
of its option layer and of its request pipeline.

Conventions of the embedding.

* A Go `string` is a sequence of bytes, `GoString`.
* A Go `map[string]string` is a list of entries with pairwise distinct keys.
  The order of the list is the order in which a `range` loop visits the map;
  Go leaves that order unspecified, so the properties that have to hold for
  every order are stated for every permutation of the entries.
* A function with results `(x, err)` returns a pair whose second component is
  `none` for a nil error.
* Functions of the Go standard library that the package calls are either
  embedded from their documented behaviour (`net/url`, and `fmt.Sprintf("%v",
  f)` for a float64 as `sprintfV`) or taken as parameters (the JSON decoder,
  the HTTP client). The methods of the option layer take the rendering of a
  float64 as a parameter, and `sprintfV` is the rendering that Go uses.
-/

namespace Yelp

/-! ## Strings, floats and maps -/

/-- A Go string is an immutable sequence of bytes. -/
abbrev GoString := List (Fin 256)

/-- The bytes of a string literal of the source, in UTF-8. -/
def str (s : String) : GoString :=
  (s.data.flatMap String.utf8EncodeChar).map (fun b => b.val)

/-- The byte of an ASCII character literal. -/
def byte (c : Char) : Fin 256 := Fin.ofNat c.toNat

/-- Go float64, kept as its IEEE 754 bit pattern (a number below 2^64). -/
structure GoFloat64 where
  bits : Fin 18446744073709551616
deriving DecidableEq, Repr

/-- Go float32, kept as its IEEE 754 bit pattern (a number below 2^32). -/
structure GoFloat32 where
  bits : Nat
deriving DecidableEq, Repr

/-- The type `null.Float` of `github.com/guregu/null`: a float64 that may be
unset. `Valid` is false for an unset value. -/
structure NullFloat where
  Float64 : GoFloat64
  Valid : Bool
deriving DecidableEq, Repr

/-- The constructor `null.FloatFrom`: a value that is set. -/
def NullFloat.FloatFrom (f : GoFloat64) : NullFloat := ⟨f, true⟩

/-- The entries of a Go map with string keys. -/
abbrev Entries (V : Type) := List (GoString × V)

/-- The assignment `m[k] = v`: replaces the value of an existing key, adds the
key otherwise. -/
def Entries.set {V : Type} : Entries V → GoString → V → Entries V
  | [], k, v => [(k, v)]
  | (k', v') :: r, k, v =>
    if k' = k then (k, v) :: r else (k', v') :: Entries.set r k v

/-- The lookup `m[k]`, `none` when the key is absent. -/
def Entries.get {V : Type} : Entries V → GoString → Option V
  | [], _ => none
  | (k', v') :: r, k => if k' = k then some v' else Entries.get r k

/-- The keys of the entries, in iteration order. -/
def Entries.keys {V : Type} (m : Entries V) : List GoString := m.map Prod.fst

/-- Go `map[string]string`. Its zero value `nil` holds no entry. -/
inductive StringMap where
  | nil
  | make (entries : Entries GoString)
deriving DecidableEq, Repr

/-- The entries of a map; the nil map has none. -/
def StringMap.entries : StringMap → Entries GoString
  | .nil => []
  | .make es => es

/-- The builtin `len(m)`. -/
def StringMap.len (m : StringMap) : Nat := m.entries.length

/-- The lookup `m[k]`. -/
def StringMap.get (m : StringMap) (k : GoString) : Option GoString :=
  m.entries.get k

/-- The key set of a map. -/
def StringMap.keys (m : StringMap) : List GoString := m.entries.keys

/-! ## Errors -/

/-- The error of `(*http.Client).Do`, which is always a `*url.Error`. -/
structure UrlError where
  Op : GoString
  URL : GoString
  Err : GoString
deriving DecidableEq, Repr

/-- The values of type `error` that occur in the package. Go compares errors
made by `errors.New` by identity, so each place of the source that makes one has
a constructor of its own. -/
inductive Error where
  /-- The error made at coordinate_options.go:24. -/
  | coordinatesRequired
  /-- The error made at location_options.go:27. -/
  | locationRequired
  /-- The package variable `errUnspecifiedLocation`, yelp.go:19. -/
  | errUnspecifiedLocation
  /-- The package variable `errBusinessNotFound`, yelp.go:20. -/
  | errBusinessNotFound
  /-- The error `errors.New(response.Status)` made at yelp.go:139. -/
  | status (Status : GoString)
  /-- An error returned by the HTTP client. -/
  | url (e : UrlError)
  /-- An error returned by the JSON decoder, with its message. -/
  | json (msg : GoString)
  /-- Any other error made by `errors.New`, with its message. -/
  | other (msg : GoString)
deriving DecidableEq, Repr

/-- The message of an error, the result of its method `Error()`. -/
def Error.message : Error → GoString
  | .coordinatesRequired =>
    str "latitude and longitude are required fields for a coordinate based search"
  | .locationRequired =>
    str ("To perform a location based search, you must provide either the coordinates " ++
      "or the location of the area to search.  For coordinate based searches, use the " ++
      "CoordinateOption class.  For location based searches, use the Location class")
  | .errUnspecifiedLocation => str "location must be specified"
  | .errBusinessNotFound => str "business not found"
  | .status s => s
  | .url e => e.Op ++ [32, 34] ++ e.URL ++ [34, 58, 32] ++ e.Err
  | .json msg => msg
  | .other msg => msg

/-! ## Rendering a float64 with the verb v -/

/-- The sign bit of a float64, `bits>>63 != 0`. -/
def GoFloat64.neg (f : GoFloat64) : Bool := decide (f.bits.val / 2 ^ 63 ≠ 0)

/-- The exponent field of a float64, `(bits>>52) & 0x7FF`. -/
def GoFloat64.expField (f : GoFloat64) : Nat := (f.bits.val / 2 ^ 52) % 2 ^ 11

/-- The mantissa field of a float64, `bits & (1<<52 - 1)`. -/
def GoFloat64.mantField (f : GoFloat64) : Nat := f.bits.val % 2 ^ 52

/-- The function `math.IsNaN`. -/
def GoFloat64.isNaN (f : GoFloat64) : Bool := f.expField = 2047 && f.mantField ≠ 0

/-- The mantissa of a finite float64 as `strconv.FormatFloat` decodes it: the
mantissa field, with the implicit top bit unless the float is denormalized. -/
def GoFloat64.mant (f : GoFloat64) : Nat :=
  if f.expField = 0 then f.mantField else f.mantField + 2 ^ 52

/-- The binary exponent of a finite float64 as `ryuFtoaShortest` receives it:
the value of the float is `mant * 2^exp`. -/
def GoFloat64.exp (f : GoFloat64) : Int :=
  (if f.expField = 0 then 1 else (f.expField : Int)) - 1023 - 52

/-- The comparison `x == y` of Go: false when an operand is NaN, true for two
zeros of any sign, and otherwise equality of the bits. -/
def GoFloat64.equal (x y : GoFloat64) : Bool :=
  !x.isNaN && !y.isNaN &&
    ((x.expField = 0 && x.mantField = 0 && y.expField = 0 && y.mantField = 0) || x.bits = y.bits)

/-- The function `computeBounds` of strconv: lower, central and upper such that
the decimals that round to the float `mant * 2^exp` are those between
`lower * 2^e2` and `upper * 2^e2`, and `central * 2^e2` is the float. -/
def computeBounds (mant : Nat) (exp : Int) : Nat × Nat × Nat × Int :=
  if mant ≠ 2 ^ 52 ∨ exp = -1074 then (2 * mant - 1, 2 * mant, 2 * mant + 1, exp - 1)
  else (4 * mant - 1, 4 * mant, 4 * mant + 2, exp - 2)

/-- The numerator of `x * 2^e2 / 10^k` over the denominator `scaleDen e2 k`. -/
def scaleNum (x : Nat) (e2 k : Int) : Nat := x * 2 ^ e2.toNat * 10 ^ (-k).toNat

/-- The common denominator of the numbers `x * 2^e2 / 10^k`. -/
def scaleDen (e2 k : Int) : Nat := 2 ^ (-e2).toNat * 10 ^ k.toNat

/-- Whether `d * 10^k` rounds to the float `mant * 2^exp`: it lies between the
bounds, which are allowed themselves when the mantissa is even. -/
def admissible (mant : Nat) (exp : Int) (k : Int) (d : Nat) : Bool :=
  let b := computeBounds mant exp
  let den := scaleDen b.2.2.2 k
  if mant % 2 = 0 then
    decide (scaleNum b.1 b.2.2.2 k ≤ d * den) && decide (d * den ≤ scaleNum b.2.2.1 b.2.2.2 k)
  else
    decide (scaleNum b.1 b.2.2.2 k < d * den) && decide (d * den < scaleNum b.2.2.1 b.2.2.2 k)

/-- Rounding of the fraction `n / den` to the nearest integer, a half to the
even one. -/
def roundHalfEven (n den : Nat) : Nat :=
  if 2 * (n % den) > den ∨ (2 * (n % den) = den ∧ (n / den) % 2 = 1) then n / den + 1
  else n / den

/-- The multiple of `10^k`, as the number of units `10^k`, that rounds to the
float and is nearest to it (of two equally near ones the even one), if a
multiple of `10^k` rounds to the float. -/
def candidateAt (mant : Nat) (exp : Int) (k : Int) : Option Nat :=
  let b := computeBounds mant exp
  let n := scaleNum b.2.1 b.2.2.2 k
  let den := scaleDen b.2.2.2 k
  if admissible mant exp k (roundHalfEven n den) then some (roundHalfEven n den)
  else if admissible mant exp k (n / den) then some (n / den)
  else if admissible mant exp k (n / den + 1) then some (n / den + 1)
  else none

/-- The search for the largest `k`, from `k` downwards, for which a multiple of
`10^k` rounds to the float. -/
def shortestFrom (mant : Nat) (exp : Int) : Nat → Int → Option (Nat × Int)
  | 0, _ => none
  | fuel + 1, k =>
    match candidateAt mant exp k with
    | some d => some (d, k)
    | none => shortestFrom mant exp fuel (k - 1)

/-- The float `mant * 2^exp` written out exactly as `d * 10^k`. -/
def exactDecimal (mant : Nat) (exp : Int) : Nat × Int :=
  (mant * 2 ^ exp.toNat * 5 ^ (-exp).toNat, if exp < 0 then exp else 0)

/-- The shortest decimal `d * 10^k` that rounds to the float `mant * 2^exp`, and
of the decimals of that length the one nearest to the float: what
`ryuFtoaShortest` computes. The search starts above the largest float64 and
reaches the exponent of the exact decimal within its fuel. -/
def shortestDecimal (mant : Nat) (exp : Int) : Nat × Int :=
  (shortestFrom mant exp 1400 310).getD (exactDecimal mant exp)

/-- The decimal digits of `n` from the last one, none for 0; `fuel` digits at
most. -/
def digitsFromLast : Nat → Nat → List Nat
  | 0, _ => []
  | fuel + 1, n => if n = 0 then [] else n % 10 :: digitsFromLast fuel (n / 10)

/-- The decimal digits of `n`, the first one first, none for 0. -/
def decimalDigits (n : Nat) : List Nat := (digitsFromLast n n).reverse

/-- The byte of a decimal digit. -/
def digitByte (d : Nat) : Fin 256 := Fin.ofNat (48 + d)

/-- The type `decimalSlice` of strconv: the digits `d` and the position `dp` of
the decimal point, for the value `0.d * 10^dp`. -/
structure DecimalSlice where
  d : List Nat
  dp : Int
deriving DecidableEq, Repr

/-- The function `ryuFtoaShortest` of strconv, by its result. -/
def ryuFtoaShortest (mant : Nat) (exp : Int) : DecimalSlice :=
  if mant = 0 then ⟨[], 0⟩
  else
    let ds := decimalDigits (shortestDecimal mant exp).1
    ⟨ds, ds.length + (shortestDecimal mant exp).2⟩

/-- The digits of the exponent that `fmtE` writes: two, or three from 100 on. -/
def expDigits (e : Nat) : GoString :=
  if e < 10 then [digitByte 0, digitByte e]
  else if e < 100 then [digitByte (e / 10), digitByte (e % 10)]
  else [digitByte (e / 100), digitByte (e / 10 % 10), digitByte (e % 10)]

/-- The function `fmtE` of strconv for the format `e`, with `prec` digits after
the point taken from the digits of the decimal. -/
def fmtE (neg : Bool) (digs : DecimalSlice) (prec : Nat) : GoString :=
  let ch := digs.d.headD 0
  let more := if prec > 0 then byte '.' :: ((digs.d.drop 1).take prec).map digitByte ++
      List.replicate (prec - (digs.d.length - 1)) (digitByte 0) else []
  let exp : Int := if digs.d.length = 0 then 0 else digs.dp - 1
  (if neg then [byte '-'] else []) ++ digitByte ch :: more ++
    byte 'e' :: (if exp < 0 then byte '-' else byte '+') :: expDigits exp.natAbs

/-- The digit at index `j` of the decimal for `fmtF`, 0 outside the digits. -/
def digitAt (digs : DecimalSlice) (j : Int) : Nat :=
  if 0 ≤ j ∧ j < digs.d.length then digs.d.getD j.toNat 0 else 0

/-- The function `fmtF` of strconv, with `prec` digits after the point. -/
def fmtF (neg : Bool) (digs : DecimalSlice) (prec : Nat) : GoString :=
  let int :=
    if digs.dp > 0 then
      (digs.d.take digs.dp.toNat).map digitByte ++
        List.replicate (digs.dp.toNat - digs.d.length) (digitByte 0)
    else [digitByte 0]
  let frac :=
    if prec > 0 then
      byte '.' :: (List.range prec).map (fun (i : Nat) => digitByte (digitAt digs (digs.dp + (i : Int))))
    else []
  (if neg then [byte '-'] else []) ++ int ++ frac

/-- The format `g` of `strconv.FormatFloat` with the shortest digits: the format
`e` when the exponent is below -4 or at least 6, the format `f` otherwise. -/
def fmtG (neg : Bool) (digs : DecimalSlice) : GoString :=
  let exp := digs.dp - 1
  if exp < -4 ∨ exp ≥ 6 then fmtE neg digs (digs.d.length - 1)
  else fmtF neg digs ((digs.d.length : Int) - digs.dp).toNat

/-- The call `fmt.Sprintf("%v", f)` for a float64 `f`, which is
`strconv.FormatFloat(f, 'g', -1, 64)` with the sign kept on an infinity. -/
def sprintfV (f : GoFloat64) : GoString :=
  if f.expField = 2047 then
    if f.mantField ≠ 0 then str "NaN" else if f.neg then str "-Inf" else str "+Inf"
  else fmtG f.neg (ryuFtoaShortest f.mant f.exp)

/-! ## A decimal parser -/

/-- Whether a byte is a decimal digit. -/
def isDigit (c : Fin 256) : Bool := byte '0' ≤ c && c ≤ byte '9'

/-- The digits at the front of a string, read into the number `acc`: the
number, the count of the digits and the rest of the string. -/
def readDigits : GoString → Nat → Nat × Nat × GoString
  | [], acc => (acc, 0, [])
  | c :: r, acc =>
    if isDigit c then
      ((readDigits r (acc * 10 + (c.val - 48))).1,
        (readDigits r (acc * 10 + (c.val - 48))).2.1 + 1,
        (readDigits r (acc * 10 + (c.val - 48))).2.2)
    else (acc, 0, c :: r)

/-- The digits after the point, if the string starts with a point: read into
`acc` as `readDigits` does. -/
def readFraction (s : GoString) (acc : Nat) : Nat × Nat × GoString :=
  match s with
  | c :: r => if c = byte '.' then readDigits r acc else (acc, 0, s)
  | [] => (acc, 0, [])

/-- The decimal exponent of a number, after the letter `e`: an optional sign and
at least one digit up to the end of the string. -/
def readExponent (s : GoString) : Option Int :=
  let neg := decide (s.head? = some (byte '-'))
  let r := if s.head? = some (byte '-') ∨ s.head? = some (byte '+') then s.tail else s
  if (readDigits r 0).2.1 = 0 ∨ (readDigits r 0).2.2 ≠ [] then none
  else some (if neg then -((readDigits r 0).1 : Int) else (readDigits r 0).1)

/-- The decimal syntax of a number without sign: digits with an optional point
among them, at least one digit, and an optional exponent. The result `(d, k)`
stands for the number `d * 10^k`. -/
def readDecimal (s : GoString) : Option (Nat × Int) :=
  let a := readDigits s 0
  let b := readFraction a.2.2 a.1
  if a.2.1 + b.2.1 = 0 then none
  else
    match b.2.2 with
    | [] => some (b.1, -(b.2.1 : Int))
    | c :: r =>
      if c = byte 'e' ∨ c = byte 'E' then
        match readExponent r with
        | some e => some (b.1, e - b.2.1)
        | none => none
      else none

/-- The largest `t` with `2^t ≤ n / den`, for positive `n` and `den`. -/
def floorLog2 (n den : Nat) : Int :=
  let t : Int := (Nat.log2 n : Int) - Nat.log2 den
  if den * 2 ^ t.toNat ≤ n * 2 ^ (-t).toNat then t else t - 1

/-- The float64 nearest to `d * 10^k` with the given sign, a number half way
between two floats going to the one with the even mantissa; `none` when the
number is out of the range of float64. -/
def roundFloat64 (neg : Bool) (d : Nat) (k : Int) : Option GoFloat64 :=
  let sign := if neg then 2 ^ 63 else 0
  if d = 0 then some ⟨Fin.ofNat sign⟩
  else
    let n := d * 10 ^ k.toNat
    let den := 10 ^ (-k).toNat
    let e := max (floorLog2 n den - 52) (-1074)
    let m := roundHalfEven (n * 2 ^ (-e).toNat) (den * 2 ^ e.toNat)
    let m' := if m = 2 ^ 53 then 2 ^ 52 else m
    let e' := if m = 2 ^ 53 then e + 1 else e
    if m' < 2 ^ 52 then some ⟨Fin.ofNat (sign + m')⟩
    else if e' + 1075 ≥ 2047 then none
    else some ⟨Fin.ofNat (sign + (e' + 1075).toNat * 2 ^ 52 + (m' - 2 ^ 52))⟩

/-- A byte with an upper case letter made lower case. -/
def lowerByte (c : Fin 256) : Fin 256 :=
  if byte 'A' ≤ c ∧ c ≤ byte 'Z' then Fin.ofNat (c.val + 32) else c

/-- A decimal parser for float64, the decimal syntax of `strconv.ParseFloat(s,
64)`: an optional sign followed by `inf` or `infinity`, or `nan` without sign
(in any case of the letters), or a decimal number with sign, whose value is the
nearest float64. It is `none` for another string and for a number out of
range. The NaN is the one of `math.NaN`. -/
def ParseDecimalFloat (s : GoString) : Option GoFloat64 :=
  let neg := decide (s.head? = some (byte '-'))
  let body := if s.head? = some (byte '-') ∨ s.head? = some (byte '+') then s.tail else s
  if body.map lowerByte = str "inf" ∨ body.map lowerByte = str "infinity" then
    some ⟨Fin.ofNat ((if neg then 2 ^ 63 else 0) + 2047 * 2 ^ 52)⟩
  else if s.map lowerByte = str "nan" then some ⟨0x7FF8000000000001⟩
  else
    match readDecimal body with
    | some p => roundFloat64 neg p.1 p.2
    | none => none

/-- The numbers that round to the finite float `mant * 2^exp`: those between
the lower and the upper bound of `computeBounds`, the bounds included when the
mantissa is even. -/
def InRoundingInterval (mant : Nat) (exp : Int) (x : ℚ) : Prop :=
  if mant % 2 = 0 then
    ((computeBounds mant exp).1 : ℚ) * 2 ^ (computeBounds mant exp).2.2.2 ≤ x ∧
      x ≤ ((computeBounds mant exp).2.2.1 : ℚ) * 2 ^ (computeBounds mant exp).2.2.2
  else
    ((computeBounds mant exp).1 : ℚ) * 2 ^ (computeBounds mant exp).2.2.2 < x ∧
      x < ((computeBounds mant exp).2.2.1 : ℚ) * 2 ^ (computeBounds mant exp).2.2.2

/-- The number that a string of decimal digits continues from `acc`. -/
def digitsValue (acc : Nat) (ds : List Nat) : Nat := ds.foldl (fun a x => a * 10 + x) acc

/-! ## Option layer -/

/-- The struct `CoordinateOptions` of coordinate_options.go. -/
structure CoordinateOptions where
  Latitude : NullFloat
  Longitude : NullFloat
deriving DecidableEq, Repr

/-- The method `CoordinateOptions.getParameters`. The parameter `fmtV` is
`fmt.Sprintf("%v", f)` for a float64 `f`, which is `sprintfV`. -/
def CoordinateOptions.getParameters (fmtV : GoFloat64 → GoString)
    (o : CoordinateOptions) : StringMap × Option Error :=
  if !o.Latitude.Valid || !o.Longitude.Valid then
    (StringMap.nil, some Error.coordinatesRequired)
  else
    let params : Entries GoString := []
    let params := params.set (str "latitude") (fmtV o.Latitude.Float64)
    let params := params.set (str "longitude") (fmtV o.Longitude.Float64)
    (StringMap.make params, none)

/-- The struct `LocationOptions` of location_options.go. The field
`CoordinateOptions` is a pointer, `none` when nil. -/
structure LocationOptions where
  Location : GoString
  CoordinateOptions : Option CoordinateOptions
deriving DecidableEq, Repr

/-- The local `coordinatesProvided` of `LocationOptions.getParameters`. -/
def LocationOptions.coordinatesProvided (o : LocationOptions) : Bool :=
  match o.CoordinateOptions with
  | none => false
  | some c => c.Latitude.Valid && c.Longitude.Valid

/-- The method `LocationOptions.getParameters`. The parameter `fmtV` is
`fmt.Sprintf("%v", f)` for a float64 `f`, which is `sprintfV`. -/
def LocationOptions.getParameters (fmtV : GoFloat64 → GoString)
    (o : LocationOptions) : StringMap × Option Error :=
  let params : Entries GoString := []
  let locationProvided : Bool := o.Location ≠ []
  let coordinatesProvided : Bool := o.coordinatesProvided
  if !locationProvided && !coordinatesProvided then
    (StringMap.make params, some Error.locationRequired)
  else
    let params := if locationProvided then params.set (str "location") o.Location else params
    let params :=
      match o.CoordinateOptions with
      | some c =>
        if coordinatesProvided then
          (params.set (str "latitude") (fmtV c.Latitude.Float64)).set
            (str "longitude") (fmtV c.Longitude.Float64)
        else params
      | none => params
    (StringMap.make params, none)

/-! ## Records of business.go -/

/-- The struct `Coordinates`. -/
structure Coordinates where
  Latitude : GoFloat32
  Longitude : GoFloat32
deriving DecidableEq, Repr

/-- The struct `Region`. -/
structure Region where
  Center : Coordinates
deriving DecidableEq, Repr

/-- The struct `Location`. -/
structure Location where
  Address1 : GoString
  Address2 : GoString
  Address3 : GoString
  City : GoString
  Country : GoString
  State : GoString
  ZipCode : GoString
  CrossStreets : GoString
  DisplayAddress : List GoString
  Neighborhoods : List GoString
deriving DecidableEq, Repr

/-- The struct `Category`. -/
structure Category where
  Alias : GoString
  Title : GoString
deriving DecidableEq, Repr

/-- The struct `Business`. -/
structure Business where
  Alias : GoString
  Categories : List Category
  Coordinates : Coordinates
  DisplayPhone : GoString
  Distance : GoFloat32
  ID : GoString
  ImageURL : GoString
  IsClosed : Bool
  Location : Location
  Name : GoString
  Phone : GoString
  Price : GoString
  Rating : GoFloat32
  ReviewCount : Int
  URL : GoString
  Transactions : List GoString
deriving DecidableEq, Repr

/-- The struct `Open`. -/
structure Open where
  Day : Int
  Start : GoString
  End : GoString
  IsOvernight : GoString
deriving DecidableEq, Repr

/-- The struct `Hours`. -/
structure Hours where
  HoursType : GoString
  IsOpenNow : GoString
  Open : List Open
deriving DecidableEq, Repr

/-- The struct `BusinessDetail`, documented in the source as the business
object returned from the detailed call: a `Business` with the hours and the
claimed flag. -/
structure BusinessDetail extends Business where
  Hours : Hours
  IsClaimed : Bool
deriving DecidableEq, Repr

/-- The struct `SearchResult`. -/
structure SearchResult where
  Region : Region
  Total : Int
  Businesses : List Business
deriving DecidableEq, Repr

/-- The zero value `Coordinates{}`. -/
def Coordinates.zero : Coordinates := ⟨⟨0⟩, ⟨0⟩⟩

/-- The zero value `Location{}`. -/
def Location.zero : Location := ⟨[], [], [], [], [], [], [], [], [], []⟩

/-- The zero value `Business{}`. -/
def Business.zero : Business :=
  { Alias := [], Categories := [], Coordinates := Coordinates.zero, DisplayPhone := [],
    Distance := ⟨0⟩, ID := [], ImageURL := [], IsClosed := false, Location := Location.zero,
    Name := [], Phone := [], Price := [], Rating := ⟨0⟩, ReviewCount := 0, URL := [],
    Transactions := [] }

/-- The zero value `SearchResult{}`. -/
def SearchResult.zero : SearchResult :=
  { Region := ⟨Coordinates.zero⟩, Total := 0, Businesses := [] }

/-! ## The query string functions of net/url -/

/-- The function `shouldEscape` of net/url in the mode `encodeQueryComponent`:
letters, digits and the marks `-`, `_`, `.`, `~` are kept, every other byte is
escaped. -/
def shouldEscape (c : Fin 256) : Bool :=
  if (byte 'a' ≤ c && c ≤ byte 'z') || (byte 'A' ≤ c && c ≤ byte 'Z') ||
      (byte '0' ≤ c && c ≤ byte '9') then false
  else if c = byte '-' || c = byte '_' || c = byte '.' || c = byte '~' then false
  else true

/-- The table `upperhex` of net/url. -/
def upperhex (n : Nat) : Fin 256 := (str "0123456789ABCDEF").getD n 0

/-- The bytes that `escape` writes for one byte of its input: a space becomes
`+`, another byte to escape becomes `%` and two hexadecimal digits (those of
`c>>4` and `c&15`). -/
def escapeByte (c : Fin 256) : GoString :=
  if shouldEscape c then
    if c = byte ' ' then [byte '+']
    else [byte '%', upperhex (c.val / 16), upperhex (c.val % 16)]
  else [c]

/-- The function `url.QueryEscape`. -/
def QueryEscape (s : GoString) : GoString := s.flatMap escapeByte

/-- The function `ishex` of net/url. -/
def ishex (c : Fin 256) : Bool :=
  (byte '0' ≤ c && c ≤ byte '9') || (byte 'a' ≤ c && c ≤ byte 'f') ||
    (byte 'A' ≤ c && c ≤ byte 'F')

/-- The function `unhex` of net/url. -/
def unhex (c : Fin 256) : Nat :=
  if byte '0' ≤ c && c ≤ byte '9' then c.val - 48
  else if byte 'a' ≤ c && c ≤ byte 'f' then c.val - 97 + 10
  else if byte 'A' ≤ c && c ≤ byte 'F' then c.val - 65 + 10
  else 0

/-- The function `url.QueryUnescape`: `%XX` becomes the byte with that
hexadecimal code and `+` a space. A `%` not followed by two hexadecimal digits
is an `EscapeError` that holds the offending bytes. -/
def QueryUnescape : GoString → Except GoString GoString
  | [] => .ok []
  | c :: rest =>
    if c = byte '%' then
      match rest with
      | a :: b :: rest' =>
        if ishex a && ishex b then
          match QueryUnescape rest' with
          | .ok t => .ok (Fin.ofNat (unhex a * 16 + unhex b) :: t)
          | .error e => .error e
        else .error ((c :: rest).take 3)
      | _ => .error ((c :: rest).take 3)
    else
      match QueryUnescape rest with
      | .ok t => .ok ((if c = byte '+' then byte ' ' else c) :: t)
      | .error e => .error e

/-- The type `url.Values`, a `map[string][]string`. -/
abbrev Values := Entries (List GoString)

/-- The method `Values.Set`. -/
def Values.Set (v : Values) (key value : GoString) : Values :=
  Entries.set v key [value]

/-- The statement `m[key] = append(m[key], value)`. -/
def Values.Add (v : Values) (key value : GoString) : Values :=
  Entries.set v key ((Entries.get v key).getD [] ++ [value])

/-- The order of Go strings: lexicographic on bytes. -/
def strLe : GoString → GoString → Bool
  | [], _ => true
  | _ :: _, [] => false
  | a :: s, b :: t => a < b || (a = b && strLe s t)

/-- The pairs that `Values.Encode` writes for one key: `key=value` for each of
its values, a `&` before every pair but the first of the buffer. -/
def encodeKey (v : Values) (buf : GoString) (k : GoString) : GoString :=
  let vs := (Entries.get v k).getD []
  let keyEscaped := QueryEscape k
  vs.foldl
    (fun buf val =>
      (if buf.length > 0 then buf ++ [byte '&'] else buf) ++ keyEscaped ++ [byte '='] ++
        QueryEscape val)
    buf

/-- The method `Values.Encode`: the pairs in the order of the sorted keys. -/
def Values.Encode (v : Values) : GoString :=
  if v.length = 0 then []
  else
    let keys := (Entries.keys v).insertionSort (fun a b => strLe a b = true)
    keys.foldl (encodeKey v) []

/-- The function `strings.Cut` for a separator of one byte. -/
def cut (sep : Fin 256) : GoString → GoString × GoString × Bool
  | [] => ([], [], false)
  | c :: r =>
    if c = sep then ([], r, true)
    else ((c :: (cut sep r).1), (cut sep r).2.1, (cut sep r).2.2)

/-- The errors of `url.ParseQuery`. -/
inductive QueryError where
  | invalidSemicolon
  | escape (s : GoString)
deriving DecidableEq, Repr

/-- The loop of `parseQuery` in net/url; each round cuts one pair off the
query, so `fuel` rounds are enough for a query of `fuel` bytes. -/
def parseQueryLoop : Nat → Values → GoString → Option QueryError → Values × Option QueryError
  | 0, m, _, err => (m, err)
  | fuel + 1, m, query, err =>
    if query = [] then (m, err)
    else
      let key := (cut (byte '&') query).1
      let query := (cut (byte '&') query).2.1
      if byte ';' ∈ key then parseQueryLoop fuel m query (some QueryError.invalidSemicolon)
      else if key = [] then parseQueryLoop fuel m query err
      else
        let value := (cut (byte '=') key).2.1
        let key := (cut (byte '=') key).1
        match QueryUnescape key with
        | .error e => parseQueryLoop fuel m query (err <|> some (QueryError.escape e))
        | .ok key =>
          match QueryUnescape value with
          | .error e => parseQueryLoop fuel m query (err <|> some (QueryError.escape e))
          | .ok value => parseQueryLoop fuel (Values.Add m key value) query err

/-- The function `url.ParseQuery`. -/
def ParseQuery (query : GoString) : Values × Option QueryError :=
  parseQueryLoop query.length [] query none

/-! ## Client pipeline of yelp.go -/

/-- The fields of `url.URL` that the package uses. -/
structure URL where
  Scheme : GoString
  Host : GoString
  Path : GoString
  RawQuery : GoString
deriving DecidableEq, Repr

/-- The method `URL.Query`. -/
def URL.Query (u : URL) : Values := (ParseQuery u.RawQuery).1

/-- An `http.Request` without body: method, URL and header. -/
structure Request where
  Method : GoString
  URL : URL
  Header : Entries (List GoString)
deriving DecidableEq, Repr

/-- The fields of `http.Response` that the package reads; `Body` holds the
bytes of the body. -/
structure Response where
  Status : GoString
  StatusCode : Int
  Body : GoString
deriving DecidableEq, Repr

/-- The results `(response, err)` of `(*http.Client).Do`: a response and a nil
error, or an error, with which a response may come. -/
inductive DoResult where
  | response (r : Response)
  | failure (r : Option Response) (err : UrlError)
deriving DecidableEq, Repr

/-- The status code of the response that the transport reported, if any. -/
def DoResult.statusCode : DoResult → Option Int
  | .response r => some r.StatusCode
  | .failure (some r) _ => some r.StatusCode
  | .failure none _ => none

/-- The call `json.NewDecoder(body).Decode(v)` for a target `v` of type `α`:
from the body and the value of the target it gives the new value of the target
and the message of the error, if any. -/
abbrev Decoder (α : Type) := GoString → α → α × Option GoString

/-- The constant `rootURI`. -/
def rootURI : GoString := str "https://api.yelp.com/"

/-- The constant `businessArea`. -/
def businessArea : GoString := str "/v3/businesses"

/-- The constant `searchArea`. -/
def searchArea : GoString := str "/v3/businesses/search"

/-- The package variable `errUnspecifiedLocation`. -/
def errUnspecifiedLocation : Error := Error.errUnspecifiedLocation

/-- The package variable `errBusinessNotFound`. -/
def errBusinessNotFound : Error := Error.errBusinessNotFound

/-- The result of `url.Parse(rootURI)`, which succeeds. -/
def rootURL : URL :=
  { Scheme := str "https", Host := str "api.yelp.com", Path := str "/", RawQuery := [] }

/-- The struct `AuthOptions`. -/
structure AuthOptions where
  YelpAPIKey : GoString
deriving DecidableEq, Repr

/-- The struct `Client`. The field `httpClient` is the field `Client` of the
source and stands for the method `Do` of the `*http.Client`: a transport with a
state of type `σ`, which maps a request and a state to the results of `Do` and
the next state. -/
structure Client (σ : Type) where
  Options : AuthOptions
  httpClient : Request → σ → DoResult × σ

/-- The state in which the operations run: the state of the transport and the
requests handed to the transport so far, oldest first. -/
structure World (σ : Type) where
  transport : σ
  calls : List Request

/-- The call `client.Client.Do(request)`. -/
def Client.Do {σ : Type} (client : Client σ) (request : Request) (w : World σ) :
    DoResult × World σ :=
  ((client.httpClient request w.transport).1,
    { transport := (client.httpClient request w.transport).2, calls := w.calls ++ [request] })

/-- Lines 94 to 122 of `makeRequest`: the request for an area, an id and the
parameters. The URL of the request is `queryURI`, which `http.NewRequest`
obtains by parsing `queryURI.String()`. -/
def Client.newRequest {σ : Type} (client : Client σ) (area id : GoString)
    (params : StringMap) : Request :=
  let queryURI := rootURL
  let queryURI := { queryURI with Path := area }
  let queryURI :=
    if id ≠ [] then { queryURI with Path := queryURI.Path ++ str "/" ++ id } else queryURI
  let queryURI :=
    if params.len > 0 then
      let queryString := queryURI.Query
      let queryString :=
        params.entries.foldl (fun q kv => Values.Set q kv.1 kv.2) queryString
      { queryURI with RawQuery := queryString.Encode }
    else queryURI
  let bearer := str "Bearer " ++ client.Options.YelpAPIKey
  { Method := str "GET", URL := queryURI, Header := [(str "Authorization", [bearer])] }

/-- The method `makeRequest`. The target `v` of the decoder is passed in and
its value after the call is returned as third result. -/
def Client.makeRequest {σ α : Type} (client : Client σ) (area id : GoString)
    (params : StringMap) (decode : Decoder α) (v : α) (w : World σ) :
    (Int × Option Error × α) × World σ :=
  let request := client.newRequest area id params
  match client.Do request w with
  | (DoResult.failure (some response) err, w) => ((response.StatusCode, some (Error.url err), v), w)
  | (DoResult.failure none err, w) => ((500, some (Error.url err), v), w)
  | (DoResult.response response, w) =>
    if response.StatusCode ≠ 200 then
      ((response.StatusCode, some (Error.status response.Status), v), w)
    else
      ((response.StatusCode, (decode response.Body v).2.map Error.json,
        (decode response.Body v).1), w)

/-- The local `params` of `DoSimpleSearch`: the map literal with the keys
`term` and `location`. -/
def simpleSearchParams (term location : GoString) : StringMap :=
  StringMap.make [(str "term", term), (str "location", location)]

/-- The method `DoSimpleSearch`. -/
def Client.DoSimpleSearch {σ : Type} (client : Client σ) (decode : Decoder SearchResult)
    (term location : GoString) (w : World σ) : (SearchResult × Option Error) × World σ :=
  if location = [] then ((SearchResult.zero, some errUnspecifiedLocation), w)
  else
    let params := simpleSearchParams term location
    let r := client.makeRequest searchArea [] params decode SearchResult.zero w
    match r.1.2.1 with
    | some err => ((SearchResult.zero, some err), r.2)
    | none => ((r.1.2.2, none), r.2)

/-- The method `DoSearch`. The type `SearchOptions` and its method
`getParameters` are not part of the available source; they are the parameters
`Opts` and `getParameters`. -/
def Client.DoSearch {σ Opts : Type} (client : Client σ) (getParameters : Opts → StringMap × Option Error)
    (decode : Decoder SearchResult) (options : Opts) (w : World σ) :
    (SearchResult × Option Error) × World σ :=
  match (getParameters options).2 with
  | some err => ((SearchResult.zero, some err), w)
  | none =>
    let params := (getParameters options).1
    let r := client.makeRequest searchArea [] params decode SearchResult.zero w
    match r.1.2.1 with
    | some err => ((SearchResult.zero, some err), r.2)
    | none => ((r.1.2.2, none), r.2)

/-- The method `GetBusiness`. -/
def Client.GetBusiness {σ : Type} (client : Client σ) (decode : Decoder Business)
    (name : GoString) (w : World σ) : (Business × Option Error) × World σ :=
  let r := client.makeRequest businessArea name StringMap.nil decode Business.zero w
  let statusCode := r.1.1
  match r.1.2.1 with
  | some err =>
    if statusCode = 400 then ((Business.zero, some errBusinessNotFound), r.2)
    else ((Business.zero, some err), r.2)
  | none => ((r.1.2.2, none), r.2)

/-! ## Values of the test `TestCoordinateOptions` -/

/-- The float64 nearest to 37.9. -/
def testLatitude : GoFloat64 := ⟨0x4042F33333333333⟩

/-- The float64 -122.5. -/
def testLongitude : GoFloat64 := ⟨0xC05EA00000000000⟩

/-- The float64 of `math.NaN()`. -/
def testNaN : GoFloat64 := ⟨0x7FF8000000000001⟩

/-- The coordinate options of `TestCoordinateOptions`. -/
def testCoordinateOptions : CoordinateOptions :=
  ⟨NullFloat.FloatFrom testLatitude, NullFloat.FloatFrom testLongitude⟩

/-- A rendering for the examples: it prints the two test coordinates as Go
does, `37.9` and `-122.5`. Its value on another float is not used. -/
def testFmtV (f : GoFloat64) : GoString :=
  if f = testLatitude then str "37.9" else str "-122.5"

/-! ## The query string in closed form -/

/-- The bytes `key=value` of one pair of a query string, both parts escaped. -/
def encodePair (p : GoString × GoString) : GoString :=
  QueryEscape p.1 ++ byte '=' :: QueryEscape p.2

/-- The query string with the keys `ks` in this order, the key `k` with the
value `f k`: the pairs `key=value` with a `&` between two of them. -/
def queryOf (f : GoString → GoString) : List GoString → GoString
  | [] => []
  | k :: ks => encodePair (k, f k) ++ ks.flatMap (fun k => byte '&' :: encodePair (k, f k))

/-! ## A stub transport -/

/-- A client whose transport gives the same reply to every request and has no
state. -/
def stubClient (reply : DoResult) : Client Unit :=
  { Options := ⟨str "key"⟩, httpClient := fun _ s => (reply, s) }

/-- The state before the first request. -/
def stubWorld : World Unit := ⟨(), []⟩

/-- A decoder that accepts every body and leaves its target as it is. -/
def stubDecoder (α : Type) : Decoder α := fun _ v => (v, none)

/-! ## Properties of the rendering of a float64 -/

/-! ## Arithmetic of rounding -/

theorem zpow_toNat_div (b : ℚ) (t : Int) :
    b ^ t = b ^ t.toNat / b ^ (-t).toNat := by
  rcases le_total 0 t with h | h
  · have h1 : (-t).toNat = 0 := Int.toNat_eq_zero.2 (by omega)
    obtain ⟨n, rfl⟩ := Int.eq_ofNat_of_zero_le h
    simp [h1]
  · have h1 : t.toNat = 0 := Int.toNat_eq_zero.2 h
    obtain ⟨n, hn⟩ := Int.eq_ofNat_of_zero_le (by omega : 0 ≤ -t)
    have ht : t = -(n : Int) := by omega
    subst ht
    simp [h1, zpow_neg]

theorem roundHalfEven_eq (n den M : Nat) (hden : 0 < den) (h1 : 2 * M * den ≤ 2 * n + den)
    (h2 : 2 * n ≤ 2 * M * den + den)
    (h3 : M % 2 = 1 → 2 * M * den < 2 * n + den ∧ 2 * n < 2 * M * den + den) :
    roundHalfEven n den = M := by
  unfold roundHalfEven
  have hn : den * (n / den) + n % den = n := Nat.div_add_mod n den
  have hr : n % den < den := Nat.mod_lt n hden
  generalize n / den = a at hn ⊢
  generalize n % den = r at hn hr ⊢
  have e : 2 * M * den = 2 * (den * M) := by ring
  rw [e] at h1 h2 h3
  have ha1 : a ≤ M := by
    by_contra hc
    have : den * (M + 1) ≤ den * a := Nat.mul_le_mul_left den (by omega)
    nlinarith
  have ha2 : M ≤ a + 1 := by
    by_contra hc
    have : den * (a + 2) ≤ den * M := Nat.mul_le_mul_left den (by omega)
    nlinarith
  have hcase : a = M ∨ a + 1 = M := by omega
  rcases hcase with rfl | rfl
  · generalize den * a = P at hn h1 h2 h3
    split_ifs with hc
    · exfalso
      rcases hc with hc | ⟨hc, hodd⟩
      · omega
      · have := h3 hodd
        omega
    · rfl
  · have e2 : den * (a + 1) = den * a + den := by ring
    rw [e2] at h1 h2 h3
    generalize den * a = P at hn h1 h2 h3
    split_ifs with hc
    · rfl
    · exfalso
      have hodd : (a + 1) % 2 = 1 → False := fun h => by
        have := h3 h
        omega
      have : ¬ (2 * r > den) := fun h => hc (Or.inl h)
      have h2r : 2 * r = den := by omega
      have : ¬ (a % 2 = 1) := fun h => hc (Or.inr ⟨h2r, h⟩)
      omega

theorem roundHalfEven_of_rat (n den M : Nat) (hden : 0 < den)
    (h1 : (M : ℚ) - 1 / 2 ≤ n / den) (h2 : (n : ℚ) / den ≤ M + 1 / 2)
    (h3 : M % 2 = 1 → (M : ℚ) - 1 / 2 < n / den ∧ (n : ℚ) / den < M + 1 / 2) :
    roundHalfEven n den = M := by
  have hd : (0 : ℚ) < den := by exact_mod_cast hden
  rw [le_div_iff₀ hd] at h1
  rw [div_le_iff₀ hd] at h2
  apply roundHalfEven_eq n den M hden
  · have : (2 * M * den : ℚ) ≤ 2 * n + den := by linarith
    exact_mod_cast this
  · have : (2 * n : ℚ) ≤ 2 * M * den + den := by linarith
    exact_mod_cast this
  · intro hodd
    obtain ⟨h4, h5⟩ := h3 hodd
    rw [lt_div_iff₀ hd] at h4
    rw [div_lt_iff₀ hd] at h5
    constructor
    · have : (2 * M * den : ℚ) < 2 * n + den := by linarith
      exact_mod_cast this
    · have : (2 * n : ℚ) < 2 * M * den + den := by linarith
      exact_mod_cast this

theorem two_zpow_pos (t : Int) : (0 : ℚ) < 2 ^ t := zpow_pos (by norm_num) t

theorem floorLog2_spec (n den : Nat) (hn : 0 < n) (hden : 0 < den) :
    (2 : ℚ) ^ floorLog2 n den ≤ n / den ∧ (n : ℚ) / den < 2 ^ (floorLog2 n den + 1) := by
  have hd : (0 : ℚ) < den := by exact_mod_cast hden
  have hnq : (0 : ℚ) < n := by exact_mod_cast hn
  have ha1 : ((2 : ℚ) ^ (Nat.log2 n : Int)) ≤ n := by
    rw [zpow_natCast]
    exact_mod_cast Nat.log2_self_le (by omega : n ≠ 0)
  have ha2 : (n : ℚ) < (2 : ℚ) ^ ((Nat.log2 n : Int) + 1) := by
    have : (n : ℚ) < (2 : ℚ) ^ (Nat.log2 n + 1) := by exact_mod_cast (Nat.lt_log2_self (n := n))
    have e : ((Nat.log2 n : Int) + 1) = ((Nat.log2 n + 1 : Nat) : Int) := by push_cast; ring
    rw [e, zpow_natCast]
    exact this
  have hb1 : ((2 : ℚ) ^ (Nat.log2 den : Int)) ≤ den := by
    rw [zpow_natCast]
    exact_mod_cast Nat.log2_self_le (by omega : den ≠ 0)
  have hb2 : (den : ℚ) < (2 : ℚ) ^ ((Nat.log2 den : Int) + 1) := by
    have : (den : ℚ) < (2 : ℚ) ^ (Nat.log2 den + 1) := by
      exact_mod_cast (Nat.lt_log2_self (n := den))
    have e : ((Nat.log2 den : Int) + 1) = ((Nat.log2 den + 1 : Nat) : Int) := by push_cast; ring
    rw [e, zpow_natCast]
    exact this
  unfold floorLog2
  simp only []
  generalize (Nat.log2 n : Int) = a at ha1 ha2 ⊢
  generalize (Nat.log2 den : Int) = b at hb1 hb2 ⊢
  have h2 : (2 : ℚ) ≠ 0 := by norm_num
  have hup : (n : ℚ) / den < 2 ^ (a - b + 1) := by
    have e : (2 : ℚ) ^ (a - b + 1) = 2 ^ (a + 1) / 2 ^ b := by
      rw [← zpow_sub₀ h2]
      congr 1
      ring
    rw [e, div_lt_div_iff₀ hd (two_zpow_pos b)]
    calc (n : ℚ) * 2 ^ b < 2 ^ (a + 1) * 2 ^ b :=
          mul_lt_mul_of_pos_right ha2 (two_zpow_pos b)
      _ ≤ 2 ^ (a + 1) * den := mul_le_mul_of_nonneg_left hb1 (le_of_lt (two_zpow_pos _))
  have hlow : (2 : ℚ) ^ (a - b - 1) ≤ n / den := by
    have e : (2 : ℚ) ^ (a - b - 1) = 2 ^ a / 2 ^ (b + 1) := by
      rw [← zpow_sub₀ h2]
      congr 1
      ring
    rw [e, div_le_div_iff₀ (two_zpow_pos _) hd]
    calc (2 : ℚ) ^ a * den ≤ 2 ^ a * 2 ^ (b + 1) :=
          mul_le_mul_of_nonneg_left (le_of_lt hb2) (le_of_lt (two_zpow_pos _))
      _ ≤ n * 2 ^ (b + 1) := mul_le_mul_of_nonneg_right ha1 (le_of_lt (two_zpow_pos _))
  have htest : (den * 2 ^ (a - b).toNat ≤ n * 2 ^ (-(a - b)).toNat) ↔
      (2 : ℚ) ^ (a - b) ≤ n / den := by
    rw [zpow_toNat_div 2 (a - b), div_le_div_iff₀ (by positivity) hd]
    constructor
    · intro h
      have : ((den * 2 ^ (a - b).toNat : Nat) : ℚ) ≤ ((n * 2 ^ (-(a - b)).toNat : Nat) : ℚ) := by
        exact_mod_cast h
      push_cast at this
      linarith
    · intro h
      have : ((den * 2 ^ (a - b).toNat : Nat) : ℚ) ≤ ((n * 2 ^ (-(a - b)).toNat : Nat) : ℚ) := by
        push_cast
        linarith
      exact_mod_cast this
  split_ifs with ht
  · exact ⟨htest.1 ht, hup⟩
  · refine ⟨hlow, ?_⟩
    have e : a - b - 1 + 1 = a - b := by ring
    rw [e]
    exact lt_of_not_le (fun h => ht (htest.2 h))

theorem GoFloat64.bits_decomp (f : GoFloat64) :
    f.bits.val = (if f.neg = true then 2 ^ 63 else 0) + f.expField * 2 ^ 52 + f.mantField ∧
      f.expField < 2048 ∧ f.mantField < 2 ^ 52 := by
  have h := f.bits.isLt
  simp only [GoFloat64.neg, GoFloat64.expField, GoFloat64.mantField, decide_eq_true_eq]
  split_ifs with hs <;> omega

theorem GoFloat64.eq_of_val (f : GoFloat64) (n : Nat) (h : f.bits.val = n) :
    (⟨Fin.ofNat n⟩ : GoFloat64) = f := by
  obtain ⟨b⟩ := f
  congr 1
  apply Fin.ext
  have := b.isLt
  simp only [Fin.ofNat] at *
  rw [← h]
  exact Nat.mod_eq_of_lt this

theorem round_core (n den M : Nat) (e : Int) (hden : 0 < den)
    (h1 : ((M : ℚ) - 1 / 2) * 2 ^ e ≤ n / den) (h2 : (n : ℚ) / den ≤ (M + 1 / 2) * 2 ^ e)
    (h3 : M % 2 = 1 → ((M : ℚ) - 1 / 2) * 2 ^ e < n / den ∧ (n : ℚ) / den < (M + 1 / 2) * 2 ^ e) :
    roundHalfEven (n * 2 ^ (-e).toNat) (den * 2 ^ e.toNat) = M := by
  have hp := two_zpow_pos e
  have hd : (0 : ℚ) < den := by exact_mod_cast hden
  have hy : (((n * 2 ^ (-e).toNat : Nat) : ℚ)) / ((den * 2 ^ e.toNat : Nat) : ℚ) =
      (n : ℚ) / den / 2 ^ e := by
    rw [zpow_toNat_div 2 e]
    push_cast
    field_simp
  apply roundHalfEven_of_rat _ _ M (by positivity)
  · rw [hy, le_div_iff₀ hp]
    exact h1
  · rw [hy, div_le_iff₀ hp]
    exact h2
  · intro hodd
    rw [hy, lt_div_iff₀ hp, div_lt_iff₀ hp]
    exact h3 hodd

theorem two_zpow_sub_one (q : Int) : (2 : ℚ) ^ (q - 1) = 2 ^ q / 2 := by
  rw [zpow_sub_one₀ (by norm_num : (2 : ℚ) ≠ 0)]
  ring

theorem two_zpow_sub_two (q : Int) : (2 : ℚ) ^ (q - 2) = 2 ^ q / 4 := by
  have e : q - 2 = q - 1 - 1 := by ring
  rw [e, two_zpow_sub_one, two_zpow_sub_one]
  ring

theorem interval_regular (m : Nat) (q : Int) (x : ℚ) (hm : 0 < m)
    (hreg : m ≠ 2 ^ 52 ∨ q = -1074) (h : InRoundingInterval m q x) :
    ((m : ℚ) - 1 / 2) * 2 ^ q ≤ x ∧ x ≤ ((m : ℚ) + 1 / 2) * 2 ^ q ∧
      (m % 2 = 1 → ((m : ℚ) - 1 / 2) * 2 ^ q < x ∧ x < ((m : ℚ) + 1 / 2) * 2 ^ q) := by
  have hl : ((2 * m - 1 : Nat) : ℚ) * 2 ^ (q - 1) = ((m : ℚ) - 1 / 2) * 2 ^ q := by
    rw [two_zpow_sub_one, Nat.cast_sub (by omega)]
    push_cast
    ring
  have hu : ((2 * m + 1 : Nat) : ℚ) * 2 ^ (q - 1) = ((m : ℚ) + 1 / 2) * 2 ^ q := by
    rw [two_zpow_sub_one]
    push_cast
    ring
  unfold InRoundingInterval at h
  simp only [computeBounds, if_pos hreg, hl, hu] at h
  split_ifs at h with hp
  · exact ⟨h.1, h.2, fun ho => absurd ho (by omega)⟩
  · exact ⟨le_of_lt h.1, le_of_lt h.2, fun _ => h⟩

theorem interval_border (q : Int) (x : ℚ) (hq : q ≠ -1074)
    (h : InRoundingInterval (2 ^ 52) q x) :
    ((2 : ℚ) ^ 52 - 1 / 4) * 2 ^ q ≤ x ∧ x ≤ ((2 : ℚ) ^ 52 + 1 / 2) * 2 ^ q := by
  have hl : ((4 * 2 ^ 52 - 1 : Nat) : ℚ) * 2 ^ (q - 2) = ((2 : ℚ) ^ 52 - 1 / 4) * 2 ^ q := by
    rw [two_zpow_sub_two]
    norm_num
    ring
  have hu : ((4 * 2 ^ 52 + 2 : Nat) : ℚ) * 2 ^ (q - 2) = ((2 : ℚ) ^ 52 + 1 / 2) * 2 ^ q := by
    rw [two_zpow_sub_two]
    norm_num
    ring
  have hnreg : ¬ ((2 : Nat) ^ 52 ≠ 2 ^ 52 ∨ q = -1074) := by
    rintro (h | h)
    · exact h rfl
    · exact hq h
  unfold InRoundingInterval at h
  simp only [computeBounds, if_neg hnreg, hl, hu] at h
  have hev : (2 : Nat) ^ 52 % 2 = 0 := by norm_num
  rw [if_pos hev] at h
  exact h

theorem zpow_le_of_le_of_lt (x : ℚ) (s t : Int) (h1 : (2 : ℚ) ^ s ≤ x) (h2 : x < 2 ^ t) :
    s < t :=
  (zpow_lt_zpow_iff_right₀ (by norm_num : (1 : ℚ) < 2)).1 (lt_of_le_of_lt h1 h2)

theorem two_zpow_add_nat (q : Int) (j : Nat) : (2 : ℚ) ^ (q + j) = 2 ^ j * 2 ^ q := by
  rw [zpow_add₀ (by norm_num : (2 : ℚ) ≠ 0), zpow_natCast]
  ring

theorem roundFloat64_eval (neg : Bool) (d : Nat) (k E : Int) (M : Nat) (hd : d ≠ 0)
    (he : max (floorLog2 (d * 10 ^ k.toNat) (10 ^ (-k).toNat) - 52) (-1074) = E)
    (hr : roundHalfEven (d * 10 ^ k.toNat * 2 ^ (-E).toNat) (10 ^ (-k).toNat * 2 ^ E.toNat) = M) :
    roundFloat64 neg d k =
      if (if M = 2 ^ 53 then 2 ^ 52 else M) < 2 ^ 52 then
        some ⟨Fin.ofNat ((if neg = true then 2 ^ 63 else 0) + (if M = 2 ^ 53 then 2 ^ 52 else M))⟩
      else if (if M = 2 ^ 53 then E + 1 else E) + 1075 ≥ 2047 then none
      else some ⟨Fin.ofNat ((if neg = true then 2 ^ 63 else 0) +
        ((if M = 2 ^ 53 then E + 1 else E) + 1075).toNat * 2 ^ 52 +
        ((if M = 2 ^ 53 then 2 ^ 52 else M) - 2 ^ 52))⟩ := by
  unfold roundFloat64
  simp only [hd, if_false, he, hr]

theorem roundFloat64_step (neg : Bool) (d : Nat) (k E t : Int) (M : Nat) (hd : d ≠ 0)
    (ht : floorLog2 (d * 10 ^ k.toNat) (10 ^ (-k).toNat) = t)
    (hE : max (t - 52) (-1074) = E)
    (h1 : ((M : ℚ) - 1 / 2) * 2 ^ E ≤ (d : ℚ) * 10 ^ k)
    (h2 : (d : ℚ) * 10 ^ k ≤ ((M : ℚ) + 1 / 2) * 2 ^ E)
    (h3 : M % 2 = 1 →
      ((M : ℚ) - 1 / 2) * 2 ^ E < (d : ℚ) * 10 ^ k ∧ (d : ℚ) * 10 ^ k < ((M : ℚ) + 1 / 2) * 2 ^ E) :
    roundFloat64 neg d k =
      if (if M = 2 ^ 53 then 2 ^ 52 else M) < 2 ^ 52 then
        some ⟨Fin.ofNat ((if neg = true then 2 ^ 63 else 0) + (if M = 2 ^ 53 then 2 ^ 52 else M))⟩
      else if (if M = 2 ^ 53 then E + 1 else E) + 1075 ≥ 2047 then none
      else some ⟨Fin.ofNat ((if neg = true then 2 ^ 63 else 0) +
        ((if M = 2 ^ 53 then E + 1 else E) + 1075).toNat * 2 ^ 52 +
        ((if M = 2 ^ 53 then 2 ^ 52 else M) - 2 ^ 52))⟩ := by
  have hxe : (d : ℚ) * 10 ^ k = ((d * 10 ^ k.toNat : Nat) : ℚ) / ((10 ^ (-k).toNat : Nat) : ℚ) := by
    rw [zpow_toNat_div 10 k]
    push_cast
    ring
  rw [hxe] at h1 h2 h3
  apply roundFloat64_eval neg d k E M hd
  · rw [ht, hE]
  · exact round_core _ _ M E (by positivity) h1 h2 h3

theorem roundFloat64_core (neg : Bool) (d : Nat) (k : Int) (m : Nat) (q : Int) (hm : 0 < m)
    (hrange : (m < 2 ^ 52 ∧ q = -1074) ∨ (2 ^ 52 ≤ m ∧ m < 2 ^ 53 ∧ -1074 ≤ q ∧ q ≤ 971))
    (hx : InRoundingInterval m q ((d : ℚ) * 10 ^ k)) :
    roundFloat64 neg d k =
      if m < 2 ^ 52 then some ⟨Fin.ofNat ((if neg = true then 2 ^ 63 else 0) + m)⟩
      else some ⟨Fin.ofNat ((if neg = true then 2 ^ 63 else 0) +
        (q + 1075).toNat * 2 ^ 52 + (m - 2 ^ 52))⟩ := by
  have hxe : (d : ℚ) * 10 ^ k = ((d * 10 ^ k.toNat : Nat) : ℚ) / ((10 ^ (-k).toNat : Nat) : ℚ) := by
    rw [zpow_toNat_div 10 k]
    push_cast
    ring
  have hdenpos : 0 < 10 ^ (-k).toNat := by positivity
  have hq0 := two_zpow_pos q
  have hmq : (1 : ℚ) ≤ m := by exact_mod_cast hm
  have hxpos : (0 : ℚ) < (d : ℚ) * 10 ^ k := by
    by_cases hreg : m ≠ 2 ^ 52 ∨ q = -1074
    · have h := (interval_regular m q _ hm hreg hx).1
      have : (0 : ℚ) < ((m : ℚ) - 1 / 2) * 2 ^ q := by
        apply mul_pos _ hq0
        linarith
      linarith
    · push_neg at hreg
      obtain ⟨h52, hq⟩ := hreg
      subst h52
      have h := (interval_border q _ hq hx).1
      have : (0 : ℚ) < ((2 : ℚ) ^ 52 - 1 / 4) * 2 ^ q := by
        apply mul_pos _ hq0
        norm_num
      linarith
  have hd : d ≠ 0 := by
    rintro rfl
    simp at hxpos
  have hnpos : 0 < d * 10 ^ k.toNat := by positivity
  obtain ⟨ht1, ht2⟩ := floorLog2_spec _ _ hnpos hdenpos
  rw [← hxe] at ht1 ht2
  obtain ⟨t, ht⟩ : ∃ t, floorLog2 (d * 10 ^ k.toNat) (10 ^ (-k).toNat) = t := ⟨_, rfl⟩
  rw [ht] at ht1 ht2
  have e51 : (2 : ℚ) ^ (q + (51 : Nat)) = 2251799813685248 * 2 ^ q := by
    rw [two_zpow_add_nat]; norm_num
  have e52 : (2 : ℚ) ^ (q + (52 : Nat)) = 4503599627370496 * 2 ^ q := by
    rw [two_zpow_add_nat]; norm_num
  have e53 : (2 : ℚ) ^ (q + (53 : Nat)) = 9007199254740992 * 2 ^ q := by
    rw [two_zpow_add_nat]; norm_num
  rcases hrange with ⟨hm52, hq⟩ | ⟨hm52, hm53, hq1, hq2⟩
  · -- denormalized
    obtain ⟨b1, b2, b3⟩ := interval_regular m q _ hm (Or.inr hq) hx
    have hmle : (m : ℚ) ≤ 4503599627370495 := by
      have : m ≤ 4503599627370495 := by omega
      exact_mod_cast this
    have hlt : (d : ℚ) * 10 ^ k < 2 ^ (q + (52 : Nat)) := by
      rw [e52]
      nlinarith
    have htq := zpow_le_of_le_of_lt _ t _ ht1 hlt
    have hE : max (t - 52) (-1074) = q := by
      rw [hq] at htq ⊢
      push_cast at htq
      exact max_eq_right (by omega)
    rw [roundFloat64_step neg d k q t m hd ht hE b1 b2 b3]
    have hne : m ≠ 2 ^ 53 := by omega
    simp only [if_neg hne, if_pos hm52]
  · by_cases hz : (4503599627370496 : ℚ) * 2 ^ q ≤ (d : ℚ) * 10 ^ k
    · -- the number is in the binade of the float
      have hmle : (m : ℚ) ≤ 9007199254740991 := by
        have : m ≤ 9007199254740991 := by omega
        exact_mod_cast this
      have hmge : (4503599627370496 : ℚ) ≤ m := by
        have : 4503599627370496 ≤ m := by omega
        exact_mod_cast this
      have hb : ((m : ℚ) - 1 / 2) * 2 ^ q ≤ (d : ℚ) * 10 ^ k ∧
          (d : ℚ) * 10 ^ k ≤ ((m : ℚ) + 1 / 2) * 2 ^ q ∧
          (m % 2 = 1 → ((m : ℚ) - 1 / 2) * 2 ^ q < (d : ℚ) * 10 ^ k ∧
            (d : ℚ) * 10 ^ k < ((m : ℚ) + 1 / 2) * 2 ^ q) := by
        by_cases hreg : m ≠ 2 ^ 52 ∨ q = -1074
        · exact interval_regular m q _ hm hreg hx
        · push_neg at hreg
          obtain ⟨h52, hq⟩ := hreg
          subst h52
          obtain ⟨c1, c2⟩ := interval_border q _ hq hx
          refine ⟨?_, ?_, fun ho => absurd ho (by norm_num)⟩
          · push_cast
            nlinarith
          · push_cast
            exact c2
      obtain ⟨b1, b2, b3⟩ := hb
      have hlt : (d : ℚ) * 10 ^ k < 2 ^ (q + (53 : Nat)) := by
        rw [e53]
        nlinarith
      have hge : (2 : ℚ) ^ (q + (52 : Nat)) ≤ (d : ℚ) * 10 ^ k := by
        rw [e52]
        exact hz
      have htq1 := zpow_le_of_le_of_lt _ t _ ht1 hlt
      have htq2 := zpow_le_of_le_of_lt _ _ (t + 1) hge ht2
      push_cast at htq1 htq2
      have hE : max (t - 52) (-1074) = q := by
        rw [max_eq_left (by omega)]
        omega
      rw [roundFloat64_step neg d k q t m hd ht hE b1 b2 b3]
      have hne : m ≠ 2 ^ 53 := by omega
      have hnlt : ¬ m < 2 ^ 52 := by omega
      have hex : ¬ q + 1075 ≥ 2047 := by omega
      simp only [if_neg hne, if_neg hnlt, if_neg hex]
    · -- the number is below the binade: the float is a power of two
      push_neg at hz
      have hm_eq : m = 2 ^ 52 := by
        by_contra hne
        have h := (interval_regular m q _ hm (Or.inl hne) hx).1
        have hmge : (4503599627370497 : ℚ) ≤ m := by
          have : 4503599627370497 ≤ m := by omega
          exact_mod_cast this
        nlinarith
      subst hm_eq
      have hlow : ((2 : ℚ) ^ 52 - 1 / 2) * 2 ^ q ≤ (d : ℚ) * 10 ^ k := by
        by_cases hq : q = -1074
        · have h := (interval_regular (2 ^ 52) q _ hm (Or.inr hq) hx).1
          push_cast at h
          exact h
        · have h := (interval_border q _ hq hx).1
          nlinarith
      have hge : (2 : ℚ) ^ (q + (51 : Nat)) ≤ (d : ℚ) * 10 ^ k := by
        rw [e51]
        norm_num at hlow
        nlinarith
      have hlt : (d : ℚ) * 10 ^ k < 2 ^ (q + (52 : Nat)) := by
        rw [e52]
        exact hz
      have htq1 := zpow_le_of_le_of_lt _ t _ ht1 hlt
      have htq2 := zpow_le_of_le_of_lt _ _ (t + 1) hge ht2
      push_cast at htq1 htq2
      have hne : (2 : Nat) ^ 52 ≠ 2 ^ 53 := by norm_num
      have hnlt : ¬ (2 : Nat) ^ 52 < 2 ^ 52 := lt_irrefl _
      by_cases hq : q = -1074
      · obtain ⟨b1, b2, b3⟩ := interval_regular (2 ^ 52) q _ hm (Or.inr hq) hx
        have hE : max (t - 52) (-1074) = q := by
          rw [hq] at htq1 htq2 ⊢
          exact max_eq_right (by omega)
        have hex : ¬ q + 1075 ≥ 2047 := by omega
        rw [roundFloat64_step neg d k q t (2 ^ 52) hd ht hE b1 b2 b3]
        simp only [if_neg hne, if_neg hnlt, if_neg hex]
      · obtain ⟨c1, c2⟩ := interval_border q _ hq hx
        have hE : max (t - 52) (-1074) = q - 1 := by
          rw [max_eq_left (by omega)]
          omega
        have b1 : (((9007199254740992 : Nat) : ℚ) - 1 / 2) * 2 ^ (q - 1) ≤ (d : ℚ) * 10 ^ k := by
          rw [two_zpow_sub_one]
          norm_num at c1 ⊢
          linarith
        have b2 : (d : ℚ) * 10 ^ k ≤ (((9007199254740992 : Nat) : ℚ) + 1 / 2) * 2 ^ (q - 1) := by
          rw [two_zpow_sub_one]
          norm_num
          linarith
        have hodd : ¬ (9007199254740992 % 2 = 1) := by norm_num
        have h53 : (9007199254740992 : Nat) = 2 ^ 53 := by norm_num
        have hex : ¬ q + 1075 ≥ 2047 := by omega
        have hqq : q - 1 + 1 = q := by ring
        rw [roundFloat64_step neg d k (q - 1) t 9007199254740992 hd ht hE b1 b2
          (fun ho => absurd ho hodd)]
        simp only [if_pos h53, if_neg hnlt, hqq, if_neg hex]

/-! ## The shortest decimal rounds to the float -/

theorem scale_le_iff (a d : Nat) (e2 k : Int) :
    scaleNum a e2 k ≤ d * scaleDen e2 k ↔ (a : ℚ) * 2 ^ e2 ≤ (d : ℚ) * 10 ^ k := by
  rw [zpow_toNat_div 2 e2, zpow_toNat_div 10 k]
  have h1 : (0 : ℚ) < 2 ^ (-e2).toNat := by positivity
  have h2 : (0 : ℚ) < 10 ^ (-k).toNat := by positivity
  rw [mul_div_assoc', mul_div_assoc', div_le_div_iff₀ h1 h2]
  unfold scaleNum scaleDen
  constructor
  · intro h
    have : ((a * 2 ^ e2.toNat * 10 ^ (-k).toNat : Nat) : ℚ) ≤
        ((d * (2 ^ (-e2).toNat * 10 ^ k.toNat) : Nat) : ℚ) := by exact_mod_cast h
    push_cast at this
    linarith
  · intro h
    have : ((a * 2 ^ e2.toNat * 10 ^ (-k).toNat : Nat) : ℚ) ≤
        ((d * (2 ^ (-e2).toNat * 10 ^ k.toNat) : Nat) : ℚ) := by
      push_cast
      linarith
    exact_mod_cast this

theorem scale_ge_iff (a d : Nat) (e2 k : Int) :
    d * scaleDen e2 k ≤ scaleNum a e2 k ↔ (d : ℚ) * 10 ^ k ≤ (a : ℚ) * 2 ^ e2 := by
  rw [zpow_toNat_div 2 e2, zpow_toNat_div 10 k]
  have h1 : (0 : ℚ) < 2 ^ (-e2).toNat := by positivity
  have h2 : (0 : ℚ) < 10 ^ (-k).toNat := by positivity
  rw [mul_div_assoc', mul_div_assoc', div_le_div_iff₀ h2 h1]
  unfold scaleNum scaleDen
  constructor
  · intro h
    have : ((d * (2 ^ (-e2).toNat * 10 ^ k.toNat) : Nat) : ℚ) ≤
        ((a * 2 ^ e2.toNat * 10 ^ (-k).toNat : Nat) : ℚ) := by exact_mod_cast h
    push_cast at this
    linarith
  · intro h
    have : ((d * (2 ^ (-e2).toNat * 10 ^ k.toNat) : Nat) : ℚ) ≤
        ((a * 2 ^ e2.toNat * 10 ^ (-k).toNat : Nat) : ℚ) := by
      push_cast
      linarith
    exact_mod_cast this

theorem scale_lt_iff (a d : Nat) (e2 k : Int) :
    scaleNum a e2 k < d * scaleDen e2 k ↔ (a : ℚ) * 2 ^ e2 < (d : ℚ) * 10 ^ k := by
  rw [← not_le, ← not_le, scale_ge_iff]

theorem scale_gt_iff (a d : Nat) (e2 k : Int) :
    d * scaleDen e2 k < scaleNum a e2 k ↔ (d : ℚ) * 10 ^ k < (a : ℚ) * 2 ^ e2 := by
  rw [← not_le, ← not_le, scale_le_iff]

theorem admissible_iff (mant : Nat) (exp k : Int) (d : Nat) :
    admissible mant exp k d = true ↔ InRoundingInterval mant exp ((d : ℚ) * 10 ^ k) := by
  unfold admissible InRoundingInterval
  by_cases hp : mant % 2 = 0
  · simp only [hp, if_true, Bool.and_eq_true, decide_eq_true_eq, scale_le_iff, scale_ge_iff]
  · simp only [hp, if_false, Bool.and_eq_true, decide_eq_true_eq, scale_lt_iff, scale_gt_iff]

theorem candidateAt_admissible (mant : Nat) (exp k : Int) (d : Nat)
    (h : candidateAt mant exp k = some d) : admissible mant exp k d = true := by
  unfold candidateAt at h
  simp only [] at h
  split_ifs at h with h1 h2 h3
  · rw [← Option.some.inj h]
    exact h1
  · rw [← Option.some.inj h]
    exact h2
  · rw [← Option.some.inj h]
    exact h3

theorem shortestFrom_admissible (mant : Nat) (exp : Int) (fuel : Nat) (k : Int) (p : Nat × Int)
    (h : shortestFrom mant exp fuel k = some p) : admissible mant exp p.2 p.1 = true := by
  induction fuel generalizing k with
  | zero => simp [shortestFrom] at h
  | succ n ih =>
    rw [shortestFrom] at h
    cases hc : candidateAt mant exp k with
    | some d =>
      rw [hc] at h
      rw [← Option.some.inj h]
      exact candidateAt_admissible mant exp k d hc
    | none =>
      rw [hc] at h
      exact ih (k - 1) h

theorem ten_zpow (k : Int) : (10 : ℚ) ^ k = 2 ^ k * 5 ^ k := by
  rw [← mul_zpow]
  norm_num

theorem exactDecimal_value (mant : Nat) (exp : Int) :
    ((exactDecimal mant exp).1 : ℚ) * 10 ^ (exactDecimal mant exp).2 = (mant : ℚ) * 2 ^ exp := by
  unfold exactDecimal
  simp only []
  by_cases h : exp < 0
  · have h1 : exp.toNat = 0 := Int.toNat_eq_zero.2 (le_of_lt h)
    rw [if_pos h, h1, ten_zpow, zpow_toNat_div 5 exp, h1]
    push_cast
    have h5 : (0 : ℚ) < 5 ^ (-exp).toNat := by positivity
    field_simp
    ring
  · have h1 : (-exp).toNat = 0 := Int.toNat_eq_zero.2 (by omega)
    rw [if_neg h, h1, zpow_toNat_div 2 exp, h1]
    push_cast
    simp

theorem float_in_interval (mant : Nat) (exp : Int) (hm : 0 < mant) :
    InRoundingInterval mant exp ((mant : ℚ) * 2 ^ exp) := by
  have hq := two_zpow_pos exp
  have hmq : (1 : ℚ) ≤ mant := by exact_mod_cast hm
  have key : ((computeBounds mant exp).1 : ℚ) * 2 ^ (computeBounds mant exp).2.2.2 <
      (mant : ℚ) * 2 ^ exp ∧ (mant : ℚ) * 2 ^ exp <
      ((computeBounds mant exp).2.2.1 : ℚ) * 2 ^ (computeBounds mant exp).2.2.2 := by
    unfold computeBounds
    split_ifs with hreg
    · simp only []
      rw [two_zpow_sub_one, Nat.cast_sub (by omega)]
      push_cast
      constructor <;> nlinarith
    · simp only []
      rw [two_zpow_sub_two, Nat.cast_sub (by omega)]
      push_cast
      constructor <;> nlinarith
  unfold InRoundingInterval
  split_ifs
  · exact ⟨le_of_lt key.1, le_of_lt key.2⟩
  · exact key

theorem shortestDecimal_interval (mant : Nat) (exp : Int) (hm : 0 < mant) :
    InRoundingInterval mant exp
      (((shortestDecimal mant exp).1 : ℚ) * 10 ^ (shortestDecimal mant exp).2) := by
  unfold shortestDecimal
  cases h : shortestFrom mant exp 1400 310 with
  | some p =>
    rw [Option.getD_some]
    exact (admissible_iff mant exp p.2 p.1).1 (shortestFrom_admissible mant exp _ _ p h)
  | none =>
    rw [Option.getD_none, exactDecimal_value]
    exact float_in_interval mant exp hm

/-! ## From the interval to the bits of the float -/

theorem GoFloat64.finite_fields (f : GoFloat64) (hfin : f.expField ≠ 2047) :
    (f.mant < 2 ^ 52 ∧ f.exp = -1074 ∧ f.expField = 0 ∧ f.mant = f.mantField) ∨
      (2 ^ 52 ≤ f.mant ∧ f.mant < 2 ^ 53 ∧ -1074 ≤ f.exp ∧ f.exp ≤ 971 ∧
        (f.exp + 1075).toNat = f.expField ∧ f.mant - 2 ^ 52 = f.mantField) := by
  obtain ⟨-, he, hmf⟩ := f.bits_decomp
  unfold GoFloat64.mant GoFloat64.exp
  by_cases h0 : f.expField = 0
  · left
    simp only [h0, if_true]
    refine ⟨hmf, by norm_num, trivial, trivial⟩
  · right
    simp only [h0, if_false]
    have h1 : 1 ≤ f.expField := Nat.one_le_iff_ne_zero.2 h0
    have h2 : f.expField ≤ 2046 := by omega
    refine ⟨by omega, by omega, by omega, by omega, by omega, by omega⟩

theorem roundFloat64_of_interval (f : GoFloat64) (hfin : f.expField ≠ 2047) (hm : 0 < f.mant)
    (d : Nat) (k : Int) (hx : InRoundingInterval f.mant f.exp ((d : ℚ) * 10 ^ k)) :
    roundFloat64 f.neg d k = some f := by
  obtain ⟨hb, -, -⟩ := f.bits_decomp
  rcases f.finite_fields hfin with ⟨h1, h2, h3, h4⟩ | ⟨h1, h2, h3, h4, h5, h6⟩
  · rw [roundFloat64_core f.neg d k f.mant f.exp hm (Or.inl ⟨h1, h2⟩) hx, if_pos h1]
    refine congrArg some (GoFloat64.eq_of_val f _ ?_)
    rw [hb, h3, h4]
    omega
  · rw [roundFloat64_core f.neg d k f.mant f.exp hm (Or.inr ⟨h1, h2, h3, h4⟩) hx,
      if_neg (by omega)]
    refine congrArg some (GoFloat64.eq_of_val f _ ?_)
    rw [hb, h5, h6]

/-! ## The search for the shortest decimal succeeds -/

theorem scaleDen_pos (e2 k : Int) : 0 < scaleDen e2 k := by
  unfold scaleDen
  positivity

theorem central_between (mant : Nat) (exp : Int) (hm : 0 < mant) :
    ((computeBounds mant exp).1 : ℚ) * 2 ^ (computeBounds mant exp).2.2.2 <
        ((computeBounds mant exp).2.1 : ℚ) * 2 ^ (computeBounds mant exp).2.2.2 ∧
      ((computeBounds mant exp).2.1 : ℚ) * 2 ^ (computeBounds mant exp).2.2.2 <
        ((computeBounds mant exp).2.2.1 : ℚ) * 2 ^ (computeBounds mant exp).2.2.2 := by
  have hp := two_zpow_pos (computeBounds mant exp).2.2.2
  have h1 : (computeBounds mant exp).1 < (computeBounds mant exp).2.1 := by
    unfold computeBounds
    split_ifs <;> simp only [] <;> omega
  have h2 : (computeBounds mant exp).2.1 < (computeBounds mant exp).2.2.1 := by
    unfold computeBounds
    split_ifs <;> simp only [] <;> omega
  have h1q : ((computeBounds mant exp).1 : ℚ) < (computeBounds mant exp).2.1 := by
    exact_mod_cast h1
  have h2q : ((computeBounds mant exp).2.1 : ℚ) < (computeBounds mant exp).2.2.1 := by
    exact_mod_cast h2
  exact ⟨mul_lt_mul_of_pos_right h1q hp, mul_lt_mul_of_pos_right h2q hp⟩

theorem interval_convex (mant : Nat) (exp : Int) (x y z : ℚ) (hxy : x ≤ y) (hyz : y ≤ z)
    (hx : InRoundingInterval mant exp x) (hz : InRoundingInterval mant exp z) :
    InRoundingInterval mant exp y := by
  unfold InRoundingInterval at *
  split_ifs at * with hp
  · exact ⟨le_trans hx.1 hxy, le_trans hyz hz.2⟩
  · exact ⟨lt_of_lt_of_le hx.1 hxy, lt_of_le_of_lt hyz hz.2⟩

theorem interval_central (mant : Nat) (exp : Int) (hm : 0 < mant) :
    InRoundingInterval mant exp
      (((computeBounds mant exp).2.1 : ℚ) * 2 ^ (computeBounds mant exp).2.2.2) := by
  obtain ⟨h1, h2⟩ := central_between mant exp hm
  unfold InRoundingInterval
  split_ifs
  · exact ⟨le_of_lt h1, le_of_lt h2⟩
  · exact ⟨h1, h2⟩

theorem candidateAt_isSome (mant : Nat) (exp k : Int) (d : Nat) (hm : 0 < mant)
    (h : admissible mant exp k d = true) : (candidateAt mant exp k).isSome = true := by
  have hden := scaleDen_pos (computeBounds mant exp).2.2.2 k
  have hfl : (scaleNum (computeBounds mant exp).2.1 (computeBounds mant exp).2.2.2 k /
      scaleDen (computeBounds mant exp).2.2.2 k) * scaleDen (computeBounds mant exp).2.2.2 k ≤
      scaleNum (computeBounds mant exp).2.1 (computeBounds mant exp).2.2.2 k :=
    Nat.div_mul_le_self _ _
  have hce : scaleNum (computeBounds mant exp).2.1 (computeBounds mant exp).2.2.2 k <
      (scaleNum (computeBounds mant exp).2.1 (computeBounds mant exp).2.2.2 k /
        scaleDen (computeBounds mant exp).2.2.2 k + 1) *
        scaleDen (computeBounds mant exp).2.2.2 k := by
    rw [Nat.mul_comm]
    exact Nat.lt_mul_div_succ _ hden
  rw [scale_ge_iff] at hfl
  rw [scale_lt_iff] at hce
  have hc := interval_central mant exp hm
  have hd := (admissible_iff mant exp k d).1 h
  have hk : (0 : ℚ) < 10 ^ k := zpow_pos (by norm_num) k
  have hcases : admissible mant exp k
      (scaleNum (computeBounds mant exp).2.1 (computeBounds mant exp).2.2.2 k /
        scaleDen (computeBounds mant exp).2.2.2 k) = true ∨
      admissible mant exp k
        (scaleNum (computeBounds mant exp).2.1 (computeBounds mant exp).2.2.2 k /
          scaleDen (computeBounds mant exp).2.2.2 k + 1) = true := by
    by_cases hle : d ≤ scaleNum (computeBounds mant exp).2.1 (computeBounds mant exp).2.2.2 k /
        scaleDen (computeBounds mant exp).2.2.2 k
    · left
      rw [admissible_iff]
      have hq : (d : ℚ) ≤ ((scaleNum (computeBounds mant exp).2.1
          (computeBounds mant exp).2.2.2 k /
          scaleDen (computeBounds mant exp).2.2.2 k : Nat) : ℚ) := by exact_mod_cast hle
      exact interval_convex mant exp _ _ _ (mul_le_mul_of_nonneg_right hq (le_of_lt hk)) hfl hd hc
    · right
      rw [admissible_iff]
      have hq : ((scaleNum (computeBounds mant exp).2.1
          (computeBounds mant exp).2.2.2 k /
          scaleDen (computeBounds mant exp).2.2.2 k + 1 : Nat) : ℚ) ≤ (d : ℚ) := by
        exact_mod_cast (by omega : _ + 1 ≤ d)
      exact interval_convex mant exp _ _ _ (le_of_lt hce)
        (mul_le_mul_of_nonneg_right hq (le_of_lt hk)) hc hd
  unfold candidateAt
  simp only []
  split_ifs with h1 h2 h3
  · rfl
  · rfl
  · rfl
  · rcases hcases with hc1 | hc1
    · exact absurd hc1 h2
    · exact absurd hc1 h3

theorem shortestFrom_isSome (mant : Nat) (exp : Int) (hm : 0 < mant) (fuel : Nat) (k k0 : Int)
    (d0 : Nat) (h0 : admissible mant exp k0 d0 = true) (hk : k0 ≤ k) (hfuel : k - k0 < fuel) :
    (shortestFrom mant exp fuel k).isSome = true := by
  induction fuel generalizing k with
  | zero => omega
  | succ n ih =>
    rw [shortestFrom]
    cases hc : candidateAt mant exp k with
    | some d => rfl
    | none =>
      have hne : k0 ≠ k := by
        intro he
        have := candidateAt_isSome mant exp k0 d0 hm h0
        rw [he, hc] at this
        exact absurd this (by simp)
      exact ih (k - 1) (by omega) (by omega)

theorem exactDecimal_admissible (mant : Nat) (exp : Int) (hm : 0 < mant) :
    admissible mant exp (exactDecimal mant exp).2 (exactDecimal mant exp).1 = true := by
  rw [admissible_iff, exactDecimal_value]
  exact float_in_interval mant exp hm

/-- The search of `shortestDecimal` finds its result within the fuel, for the
mantissa and the exponent of every finite float64 other than zero. -/
theorem shortestDecimal_found (mant : Nat) (exp : Int) (hm : 0 < mant) (he : -1074 ≤ exp) :
    shortestFrom mant exp 1400 310 = some (shortestDecimal mant exp) := by
  have hk : -1074 ≤ (exactDecimal mant exp).2 ∧ (exactDecimal mant exp).2 ≤ 0 := by
    unfold exactDecimal
    simp only []
    split_ifs <;> omega
  have h := shortestFrom_isSome mant exp hm 1400 310 _ _ (exactDecimal_admissible mant exp hm)
    (by omega) (by omega)
  unfold shortestDecimal
  cases hs : shortestFrom mant exp 1400 310 with
  | some p => rfl
  | none =>
    rw [hs] at h
    exact absurd h (by simp)

theorem shortestFrom_first (mant : Nat) (exp : Int) (hm : 0 < mant) (fuel : Nat) (k : Int)
    (p : Nat × Int) (h : shortestFrom mant exp fuel k = some p) :
    p.2 ≤ k ∧ ∀ (k1 : Int) (d1 : Nat), p.2 < k1 → k1 ≤ k → admissible mant exp k1 d1 = false := by
  induction fuel generalizing k with
  | zero => simp [shortestFrom] at h
  | succ n ih =>
    rw [shortestFrom] at h
    cases hc : candidateAt mant exp k with
    | some d =>
      rw [hc] at h
      rw [← Option.some.inj h]
      exact ⟨le_refl k, fun k1 d1 h1 h2 => absurd h1 (by simp only []; omega)⟩
    | none =>
      rw [hc] at h
      obtain ⟨i1, i2⟩ := ih (k - 1) h
      refine ⟨by omega, ?_⟩
      intro k1 d1 h1 h2
      by_cases hk : k1 = k
      · cases ha : admissible mant exp k1 d1 with
        | false => rfl
        | true =>
          have := candidateAt_isSome mant exp k1 d1 hm ha
          rw [hk, hc] at this
          exact absurd this (by simp)
      · exact i2 k1 d1 h1 (by omega)

/-- No decimal with a larger exponent, up to the start of the search, rounds to
the float: the decimal of `shortestDecimal` has the fewest digits. -/
theorem shortestDecimal_shortest (mant : Nat) (exp : Int) (hm : 0 < mant) (he : -1074 ≤ exp)
    (k1 : Int) (d1 : Nat) (h1 : (shortestDecimal mant exp).2 < k1) (h2 : k1 ≤ 310) :
    admissible mant exp k1 d1 = false :=
  (shortestFrom_first mant exp hm 1400 310 _ (shortestDecimal_found mant exp hm he)).2 k1 d1 h1 h2

/-! ## Reading back the digits that were written -/

theorem digitByte_val (d : Nat) (h : d < 10) : (digitByte d).val = 48 + d := by
  unfold digitByte
  simp only [Fin.ofNat, Fin.val_mk]
  omega

theorem isDigit_iff (c : Fin 256) : isDigit c = true ↔ 48 ≤ c.val ∧ c.val ≤ 57 := by
  unfold isDigit
  rw [Bool.and_eq_true, decide_eq_true_eq, decide_eq_true_eq, Fin.le_def, Fin.le_def]
  rfl

theorem isDigit_digitByte (d : Nat) (h : d < 10) : isDigit (digitByte d) = true := by
  rw [isDigit_iff, digitByte_val d h]
  omega

theorem digitsValue_append (acc : Nat) (xs ys : List Nat) :
    digitsValue acc (xs ++ ys) = digitsValue (digitsValue acc xs) ys := by
  unfold digitsValue
  rw [List.foldl_append]

theorem digitsValue_cons (acc x : Nat) (xs : List Nat) :
    digitsValue acc (x :: xs) = digitsValue (acc * 10 + x) xs := rfl

theorem digitsValue_zeros (acc n : Nat) :
    digitsValue acc (List.replicate n 0) = acc * 10 ^ n := by
  induction n generalizing acc with
  | zero => simp [digitsValue]
  | succ n ih =>
    rw [List.replicate_succ, digitsValue_cons, ih, pow_succ]
    ring

theorem readDigits_stop (rest : GoString) (acc : Nat)
    (hrest : ∀ c r, rest = c :: r → isDigit c = false) :
    readDigits rest acc = (acc, 0, rest) := by
  cases rest with
  | nil => rfl
  | cons c r =>
    rw [readDigits, if_neg]
    rw [hrest c r rfl]
    simp

theorem readDigits_digits (ds : List Nat) (hds : ∀ x ∈ ds, x < 10) (rest : GoString)
    (hrest : ∀ c r, rest = c :: r → isDigit c = false) (acc : Nat) :
    readDigits (ds.map digitByte ++ rest) acc = (digitsValue acc ds, ds.length, rest) := by
  induction ds generalizing acc with
  | nil => exact readDigits_stop rest acc hrest
  | cons x xs ih =>
    have hx : x < 10 := hds x (List.mem_cons_self x xs)
    have hxs : ∀ y ∈ xs, y < 10 := fun y hy => hds y (List.mem_cons_of_mem x hy)
    rw [List.map_cons, List.cons_append, readDigits, if_pos (isDigit_digitByte x hx),
      digitByte_val x hx, ih hxs, digitsValue_cons]
    simp

theorem digitsFromLast_zero (fuel : Nat) : digitsFromLast fuel 0 = [] := by
  cases fuel <;> simp [digitsFromLast]

theorem digitsFromLast_spec (fuel n : Nat) (h : n ≤ fuel) :
    (∀ x ∈ digitsFromLast fuel n, x < 10) ∧
      digitsValue 0 (digitsFromLast fuel n).reverse = n ∧
      (0 < n → 10 ^ ((digitsFromLast fuel n).length - 1) ≤ n ∧
        n < 10 ^ (digitsFromLast fuel n).length ∧ 1 ≤ (digitsFromLast fuel n).length) := by
  induction fuel generalizing n with
  | zero =>
    have : n = 0 := by omega
    subst this
    simp [digitsFromLast, digitsValue]
  | succ fuel ih =>
    by_cases hn : n = 0
    · subst hn
      simp [digitsFromLast, digitsValue]
    · rw [digitsFromLast, if_neg hn]
      obtain ⟨i1, i2, i3⟩ := ih (n / 10) (by omega)
      refine ⟨?_, ?_, ?_⟩
      · intro x hx
        rcases List.mem_cons.1 hx with hx | hx
        · omega
        · exact i1 x hx
      · rw [List.reverse_cons, digitsValue_append, i2]
        simp only [digitsValue, List.foldl_cons, List.foldl_nil]
        omega
      · intro _
        rw [List.length_cons]
        by_cases hq : n / 10 = 0
        · rw [hq, digitsFromLast_zero]
          simp only [List.length_nil]
          omega
        · obtain ⟨j1, j2, j3⟩ := i3 (Nat.pos_of_ne_zero hq)
          refine ⟨?_, ?_, by omega⟩
          · have e : (digitsFromLast fuel (n / 10)).length + 1 - 1 =
                ((digitsFromLast fuel (n / 10)).length - 1) + 1 := by omega
            rw [e, pow_succ]
            omega
          · rw [pow_succ]
            omega

theorem decimalDigits_spec (n : Nat) :
    (∀ x ∈ decimalDigits n, x < 10) ∧ digitsValue 0 (decimalDigits n) = n ∧
      (0 < n → 10 ^ ((decimalDigits n).length - 1) ≤ n ∧ n < 10 ^ (decimalDigits n).length ∧
        1 ≤ (decimalDigits n).length) := by
  obtain ⟨h1, h2, h3⟩ := digitsFromLast_spec n n (le_refl n)
  unfold decimalDigits
  refine ⟨fun x hx => h1 x (List.mem_reverse.1 hx), h2, ?_⟩
  rw [List.length_reverse]
  exact h3

theorem readDigits_expDigits (n : Nat) (h : n < 1000) :
    (readDigits (expDigits n) 0).1 = n ∧ (readDigits (expDigits n) 0).2.1 ≠ 0 ∧
      (readDigits (expDigits n) 0).2.2 = [] := by
  have hnil : ∀ c r, ([] : GoString) = c :: r → isDigit c = false := by
    intro c r hc
    cases hc
  unfold expDigits
  split_ifs with h1 h2
  · have e : [digitByte 0, digitByte n] = [0, n].map digitByte ++ [] := rfl
    rw [e, readDigits_digits [0, n] (by simp; omega) [] hnil]
    simp [digitsValue]
  · have e : [digitByte (n / 10), digitByte (n % 10)] =
        [n / 10, n % 10].map digitByte ++ [] := rfl
    rw [e, readDigits_digits [n / 10, n % 10] (by simp; omega) [] hnil]
    simp only [digitsValue, List.foldl_cons, List.foldl_nil, List.length_cons, List.length_nil]
    refine ⟨by omega, by omega, trivial⟩
  · have e : [digitByte (n / 100), digitByte (n / 10 % 10), digitByte (n % 10)] =
        [n / 100, n / 10 % 10, n % 10].map digitByte ++ [] := rfl
    rw [e, readDigits_digits [n / 100, n / 10 % 10, n % 10] (by simp; omega) [] hnil]
    simp only [digitsValue, List.foldl_cons, List.foldl_nil, List.length_cons, List.length_nil]
    refine ⟨by omega, by omega, trivial⟩

theorem readExponent_signed (e : Int) (h : e.natAbs < 1000) :
    readExponent ((if e < 0 then byte '-' else byte '+') :: expDigits e.natAbs) = some e := by
  obtain ⟨h1, h2, h3⟩ := readDigits_expDigits e.natAbs h
  unfold readExponent
  by_cases hneg : e < 0
  · simp only [hneg, if_true, List.head?_cons, true_or, List.tail_cons, decide_True]
    rw [if_neg (by simp [h2, h3]), h1]
    congr 1
    omega
  · have hne : byte '+' ≠ byte '-' := by decide
    simp only [hneg, if_false, List.head?_cons, Option.some.injEq, hne, or_true, if_true,
      List.tail_cons, decide_False]
    rw [if_neg (by simp [h2, h3]), h1]
    simp only [Bool.false_eq_true, if_false]
    congr 1
    omega

theorem byte_point_not_digit : isDigit (byte '.') = false := by decide

theorem byte_e_not_digit : isDigit (byte 'e') = false := by decide

theorem stop_nil : ∀ (c : Fin 256) (r : GoString), ([] : GoString) = c :: r → isDigit c = false := by
  intro c r h
  cases h

theorem stop_cons (c0 : Fin 256) (r0 : GoString) (h0 : isDigit c0 = false) :
    ∀ (c : Fin 256) (r : GoString), c0 :: r0 = c :: r → isDigit c = false := by
  intro c r h
  cases h
  exact h0

theorem readDecimal_int (L : List Nat) (hL : ∀ x ∈ L, x < 10) (hne : L ≠ []) :
    readDecimal (L.map digitByte) = some (digitsValue 0 L, 0) := by
  have e := readDigits_digits L hL [] stop_nil 0
  rw [List.append_nil] at e
  have hlen : L.length ≠ 0 := fun h => hne (List.length_eq_zero.1 h)
  unfold readDecimal
  simp only [e, readFraction]
  rw [if_neg (by omega)]
  simp

theorem readDecimal_point (T R : List Nat) (hT : ∀ x ∈ T, x < 10) (hR : ∀ x ∈ R, x < 10)
    (hne : T ≠ []) :
    readDecimal (T.map digitByte ++ byte '.' :: R.map digitByte) =
      some (digitsValue (digitsValue 0 T) R, -(R.length : Int)) := by
  have e1 := readDigits_digits T hT (byte '.' :: R.map digitByte)
    (stop_cons _ _ byte_point_not_digit) 0
  have e2 := readDigits_digits R hR [] stop_nil (digitsValue 0 T)
  rw [List.append_nil] at e2
  have hlen : T.length ≠ 0 := fun h => hne (List.length_eq_zero.1 h)
  unfold readDecimal
  simp only [e1, readFraction, if_true, e2]
  rw [if_neg (by omega)]

theorem readDecimal_exp (d0 : Nat) (tl : List Nat) (h0 : d0 < 10) (htl : ∀ x ∈ tl, x < 10)
    (e : Int) (he : e.natAbs < 1000) :
    readDecimal (digitByte d0 :: ((if tl.length > 0 then byte '.' :: tl.map digitByte else []) ++
      byte 'e' :: (if e < 0 then byte '-' else byte '+') :: expDigits e.natAbs)) =
      some (digitsValue 0 (d0 :: tl), e - tl.length) := by
  have hx := readExponent_signed e he
  have h1 : ∀ x ∈ [d0], x < 10 := by
    intro x hx
    rw [List.mem_singleton.1 hx]
    exact h0
  have hne : byte 'e' ≠ byte '.' := by decide
  by_cases ht : tl.length > 0
  · rw [if_pos ht]
    have e1 := readDigits_digits [d0] h1 (byte '.' :: (tl.map digitByte ++
      byte 'e' :: (if e < 0 then byte '-' else byte '+') :: expDigits e.natAbs))
      (stop_cons _ _ byte_point_not_digit) 0
    have e2 := readDigits_digits tl htl
      (byte 'e' :: (if e < 0 then byte '-' else byte '+') :: expDigits e.natAbs)
      (stop_cons _ _ byte_e_not_digit) (digitsValue 0 [d0])
    simp only [List.map_cons, List.map_nil, List.cons_append, List.nil_append] at e1
    unfold readDecimal
    simp only [List.cons_append, e1, readFraction, if_true, e2, List.length_cons, List.length_nil]
    rw [if_neg (by omega)]
    simp only [true_or, if_true, hx]
    rfl
  · rw [if_neg ht]
    have htl0 : tl = [] := List.length_eq_zero.1 (by omega)
    subst htl0
    have e1 := readDigits_digits [d0] h1
      (byte 'e' :: (if e < 0 then byte '-' else byte '+') :: expDigits e.natAbs)
      (stop_cons _ _ byte_e_not_digit) 0
    simp only [List.map_cons, List.map_nil, List.cons_append, List.nil_append] at e1
    unfold readDecimal
    simp only [List.nil_append, e1, readFraction, if_neg hne, List.length_cons, List.length_nil]
    rw [if_neg (by omega)]
    simp only [true_or, if_true, hx]

/-! ## The shapes of the written number -/

theorem fraction_mid (ds : List Nat) (p : Nat) (h : p ≤ ds.length) :
    (List.range (ds.length - p)).map (fun i => digitAt ⟨ds, (p : Int)⟩ ((p : Int) + (i : Nat))) =
      ds.drop p := by
  apply List.ext_getElem
  · simp
  · intro i h1 h2
    simp only [List.length_map, List.length_range] at h1
    simp only [List.getElem_map, List.getElem_range, List.getElem_drop]
    unfold digitAt
    have hc : (0 : Int) ≤ (p : Int) + (i : Nat) ∧ (p : Int) + (i : Nat) < (ds.length : Int) := by
      constructor <;> omega
    have ht : ((p : Int) + (i : Nat)).toNat = p + i := by omega
    simp only [hc, and_self, if_true, ht]
    rw [List.getD_eq_getElem ds 0 (by omega)]

theorem fraction_small (ds : List Nat) (z : Nat) :
    (List.range (ds.length + z)).map
      (fun i => digitAt ⟨ds, -(z : Int)⟩ (-(z : Int) + (i : Nat))) =
      List.replicate z 0 ++ ds := by
  apply List.ext_getElem
  · simp
    omega
  · intro i h1 h2
    simp only [List.length_map, List.length_range] at h1
    simp only [List.getElem_map, List.getElem_range]
    unfold digitAt
    by_cases hi : i < z
    · rw [List.getElem_append_left (by simpa using hi), List.getElem_replicate, if_neg]
      omega
    · rw [List.getElem_append_right (by simpa using hi)]
      have hc : (0 : Int) ≤ -(z : Int) + (i : Nat) ∧ -(z : Int) + (i : Nat) < (ds.length : Int) := by
        constructor <;> omega
      have ht : (-(z : Int) + (i : Nat)).toNat = i - z := by omega
      simp only [hc, and_self, if_true, ht, List.length_replicate]
      rw [List.getD_eq_getElem ds 0 (by omega)]

theorem fmtF_int (neg : Bool) (ds : List Nat) (dp : Int) (h1 : 0 < dp) (h2 : (ds.length : Int) ≤ dp) :
    fmtF neg ⟨ds, dp⟩ ((ds.length : Int) - dp).toNat =
      (if neg then [byte '-'] else []) ++
        (ds ++ List.replicate (dp.toNat - ds.length) 0).map digitByte := by
  have hp : ((ds.length : Int) - dp).toNat = 0 := by omega
  have ht : ds.take dp.toNat = ds := List.take_of_length_le (by omega)
  unfold fmtF
  simp only [hp, gt_iff_lt, h1, if_true, lt_self_iff_false, if_false, List.append_nil, ht,
    List.map_append, List.map_replicate]

theorem fmtF_mid (neg : Bool) (ds : List Nat) (dp : Int) (h1 : 0 < dp) (h2 : dp < (ds.length : Int)) :
    fmtF neg ⟨ds, dp⟩ ((ds.length : Int) - dp).toNat =
      (if neg then [byte '-'] else []) ++
        ((ds.take dp.toNat).map digitByte ++ byte '.' :: (ds.drop dp.toNat).map digitByte) := by
  have hp : ((ds.length : Int) - dp).toNat = ds.length - dp.toNat := by omega
  have hpos : 0 < ds.length - dp.toNat := by omega
  have hz : dp.toNat - ds.length = 0 := by omega
  have hdp : dp = (dp.toNat : Int) := by omega
  have hf := fraction_mid ds dp.toNat (by omega)
  rw [← hdp] at hf
  unfold fmtF
  simp only [hp, gt_iff_lt, h1, if_true, hpos, hz, List.replicate_zero, List.append_nil,
    List.append_assoc]
  rw [← hf, List.map_map]
  rfl

theorem fmtF_small (neg : Bool) (ds : List Nat) (dp : Int) (h1 : dp ≤ 0) (hne : ds ≠ []) :
    fmtF neg ⟨ds, dp⟩ ((ds.length : Int) - dp).toNat =
      (if neg then [byte '-'] else []) ++
        ([0].map digitByte ++ byte '.' ::
          (List.replicate (-dp).toNat 0 ++ ds).map digitByte) := by
  have hlen : 0 < ds.length := List.length_pos.2 hne
  have hp : ((ds.length : Int) - dp).toNat = ds.length + (-dp).toNat := by omega
  have hpos : 0 < ds.length + (-dp).toNat := by omega
  have hdp : dp = -((-dp).toNat : Int) := by omega
  have hf := fraction_small ds (-dp).toNat
  rw [← hdp] at hf
  have hn : ¬ 0 < dp := by omega
  unfold fmtF
  simp only [hp, gt_iff_lt, hn, if_false, hpos, if_true, List.append_assoc]
  rw [← hf, List.map_map]
  rfl

theorem fmtE_shape (neg : Bool) (d0 : Nat) (tl : List Nat) (dp : Int) :
    fmtE neg ⟨d0 :: tl, dp⟩ ((d0 :: tl).length - 1) =
      (if neg then [byte '-'] else []) ++
        (digitByte d0 :: ((if tl.length > 0 then byte '.' :: tl.map digitByte else []) ++
          byte 'e' :: (if dp - 1 < 0 then byte '-' else byte '+') :: expDigits (dp - 1).natAbs)) := by
  unfold fmtE
  simp only [List.length_cons, Nat.add_sub_cancel, List.headD_cons, List.drop_succ_cons,
    List.drop_zero, List.take_length, Nat.sub_self, List.replicate_zero, List.append_nil,
    Nat.succ_ne_zero, if_false, List.cons_append, List.append_assoc]

/-! ## The sign and the names of the special values -/

theorem lowerByte_low (c : Fin 256) (h : c.val < 65) : lowerByte c = c := by
  unfold lowerByte
  rw [if_neg]
  intro hc
  have h1 := hc.1
  rw [Fin.le_def] at h1
  have h2 : (byte 'A').val = 65 := rfl
  omega

theorem not_special (c : Fin 256) (r : GoString) (h : c.val < 65) :
    (c :: r).map lowerByte ≠ str "inf" ∧ (c :: r).map lowerByte ≠ str "infinity" ∧
      (c :: r).map lowerByte ≠ str "nan" := by
  have e1 : (str "inf").head? = some (byte 'i') := rfl
  have e2 : (str "infinity").head? = some (byte 'i') := rfl
  have e3 : (str "nan").head? = some (byte 'n') := rfl
  have hi : (byte 'i').val = 105 := rfl
  have hn : (byte 'n').val = 110 := rfl
  have hh : ((c :: r).map lowerByte).head? = some c := by
    rw [List.map_cons, List.head?_cons, lowerByte_low c h]
  refine ⟨?_, ?_, ?_⟩
  · intro hc
    rw [hc, e1] at hh
    have := congrArg Fin.val (Option.some.inj hh)
    omega
  · intro hc
    rw [hc, e2] at hh
    have := congrArg Fin.val (Option.some.inj hh)
    omega
  · intro hc
    rw [hc, e3] at hh
    have := congrArg Fin.val (Option.some.inj hh)
    omega

theorem ParseDecimalFloat_signed (neg : Bool) (c : Fin 256) (r : GoString)
    (hc : isDigit c = true) :
    ParseDecimalFloat ((if neg then [byte '-'] else []) ++ c :: r) =
      (readDecimal (c :: r)).bind (fun p => roundFloat64 neg p.1 p.2) := by
  rw [isDigit_iff] at hc
  have hm : (byte '-').val = 45 := rfl
  have hp : (byte '+').val = 43 := rfl
  have hcm : c ≠ byte '-' := by
    intro h
    rw [h] at hc
    omega
  have hcp : c ≠ byte '+' := by
    intro h
    rw [h] at hc
    omega
  obtain ⟨n1, n2, n3⟩ := not_special c r (by omega)
  obtain ⟨m1, m2, m3⟩ := not_special (byte '-') (c :: r) (by omega)
  cases neg with
  | true =>
    unfold ParseDecimalFloat
    simp only [if_true, List.cons_append, List.nil_append, List.head?_cons, true_or,
      List.tail_cons, decide_True]
    rw [if_neg (by
      intro h
      rcases h with h | h
      · exact n1 h
      · exact n2 h), if_neg m3]
    cases readDecimal (c :: r) <;> rfl
  | false =>
    unfold ParseDecimalFloat
    simp only [Bool.false_eq_true, if_false, List.nil_append, List.head?_cons,
      Option.some.injEq, hcm, hcp, or_self, decide_False]
    rw [if_neg (by
      intro h
      rcases h with h | h
      · exact n1 h
      · exact n2 h), if_neg n3]
    cases readDecimal (c :: r) <;> rfl

theorem ParseDecimalFloat_digits (neg : Bool) (L : List Nat) (rest : GoString) (p : Nat × Int)
    (hL : ∀ x ∈ L, x < 10) (hne : L ≠ [])
    (hr : readDecimal (L.map digitByte ++ rest) = some p) :
    ParseDecimalFloat ((if neg then [byte '-'] else []) ++ (L.map digitByte ++ rest)) =
      roundFloat64 neg p.1 p.2 := by
  cases L with
  | nil => exact absurd rfl hne
  | cons x xs =>
    rw [List.map_cons, List.cons_append] at hr ⊢
    rw [ParseDecimalFloat_signed neg _ _ (isDigit_digitByte x (hL x (List.mem_cons_self x xs))), hr,
      Option.some_bind]

/-! ## Reading back the format g -/

theorem ParseDecimalFloat_fmtG (neg : Bool) (ds : List Nat) (k : Int) (hds : ∀ x ∈ ds, x < 10)
    (hne : ds ≠ []) (hexp : ((ds.length : Int) + k - 1).natAbs < 1000) :
    ∃ p : Nat × Int, ParseDecimalFloat (fmtG neg ⟨ds, (ds.length : Int) + k⟩) =
        roundFloat64 neg p.1 p.2 ∧
      (p.1 : ℚ) * 10 ^ p.2 = (digitsValue 0 ds : ℚ) * 10 ^ k := by
  have hlen : 0 < ds.length := List.length_pos.2 hne
  unfold fmtG
  simp only []
  split_ifs with hE
  · cases ds with
    | nil => exact absurd rfl hne
    | cons d0 tl =>
      have h0 : d0 < 10 := hds d0 (List.mem_cons_self d0 tl)
      have htl : ∀ x ∈ tl, x < 10 := fun x hx => hds x (List.mem_cons_of_mem d0 hx)
      have hr := readDecimal_exp d0 tl h0 htl (((d0 :: tl).length : Int) + k - 1) hexp
      refine ⟨(digitsValue 0 (d0 :: tl), ((d0 :: tl).length : Int) + k - 1 - tl.length), ?_, ?_⟩
      · rw [fmtE_shape]
        have e := ParseDecimalFloat_digits neg [d0] _ _ (by
          intro x hx
          rw [List.mem_singleton.1 hx]
          exact h0) (by simp) hr
        exact e
      · have : ((d0 :: tl).length : Int) + k - 1 - tl.length = k := by
          rw [List.length_cons]
          push_cast
          ring
        rw [this]
  · by_cases h1 : 0 < (ds.length : Int) + k
    · by_cases h2 : (ds.length : Int) ≤ (ds.length : Int) + k
      · -- digits and zeros, no point
        have hz : ((ds.length : Int) + k).toNat - ds.length = k.toNat := by omega
        have hk : k = (k.toNat : Int) := by omega
        have hL : ∀ x ∈ ds ++ List.replicate k.toNat 0, x < 10 := by
          intro x hx
          rcases List.mem_append.1 hx with hx | hx
          · exact hds x hx
          · rw [(List.mem_replicate.1 hx).2]
            norm_num
        have hr := readDecimal_int _ hL (by simp [hne])
        refine ⟨(digitsValue 0 (ds ++ List.replicate k.toNat 0), 0), ?_, ?_⟩
        · rw [fmtF_int neg ds _ h1 h2, hz]
          have e := ParseDecimalFloat_digits neg _ [] _ hL (by simp [hne])
            (by rw [List.append_nil]; exact hr)
          rw [List.append_nil] at e
          exact e
        · rw [digitsValue_append, digitsValue_zeros]
          simp only [zpow_zero, mul_one]
          push_cast
          nth_rewrite 2 [hk]
          rw [zpow_natCast]
      · -- the point among the digits
        have h2' : (ds.length : Int) + k < ds.length := by omega
        have hT : ∀ x ∈ ds.take ((ds.length : Int) + k).toNat, x < 10 :=
          fun x hx => hds x (List.mem_of_mem_take hx)
        have hR : ∀ x ∈ ds.drop ((ds.length : Int) + k).toNat, x < 10 :=
          fun x hx => hds x (List.mem_of_mem_drop hx)
        have hTne : ds.take ((ds.length : Int) + k).toNat ≠ [] := by
          intro h
          have := congrArg List.length h
          rw [List.length_take, List.length_nil] at this
          omega
        have hr := readDecimal_point _ _ hT hR hTne
        refine ⟨(digitsValue (digitsValue 0 (ds.take ((ds.length : Int) + k).toNat))
          (ds.drop ((ds.length : Int) + k).toNat),
          -((ds.drop ((ds.length : Int) + k).toNat).length : Int)), ?_, ?_⟩
        · rw [fmtF_mid neg ds _ h1 h2']
          exact ParseDecimalFloat_digits neg _ _ _ hT hTne hr
        · simp only []
          rw [← digitsValue_append, List.take_append_drop, List.length_drop]
          congr 2
          omega
    · -- zeros after the point
      have h1' : (ds.length : Int) + k ≤ 0 := by omega
      have hT : ∀ x ∈ [0], x < 10 := by
        intro x hx
        rw [List.mem_singleton.1 hx]
        norm_num
      have hR : ∀ x ∈ List.replicate (-((ds.length : Int) + k)).toNat 0 ++ ds, x < 10 := by
        intro x hx
        rcases List.mem_append.1 hx with hx | hx
        · rw [(List.mem_replicate.1 hx).2]
          norm_num
        · exact hds x hx
      have hr := readDecimal_point _ _ hT hR (by simp)
      refine ⟨(digitsValue (digitsValue 0 [0])
        (List.replicate (-((ds.length : Int) + k)).toNat 0 ++ ds),
        -((List.replicate (-((ds.length : Int) + k)).toNat 0 ++ ds).length : Int)), ?_, ?_⟩
      · rw [fmtF_small neg ds _ h1' hne]
        exact ParseDecimalFloat_digits neg _ _ _ hT (by simp) hr
      · simp only []
        rw [digitsValue_append, digitsValue_zeros, List.length_append, List.length_replicate]
        have e0 : digitsValue 0 [0] * 10 ^ (-((ds.length : Int) + k)).toNat = 0 := by
          simp [digitsValue]
        rw [e0]
        congr 2
        omega

/-! ## The round trip of a float64 -/

theorem interval_weak (m : Nat) (q : Int) (x : ℚ) (hm : 0 < m) (h : InRoundingInterval m q x) :
    ((m : ℚ) - 1 / 2) * 2 ^ q ≤ x ∧ x ≤ ((m : ℚ) + 1 / 2) * 2 ^ q := by
  by_cases hreg : m ≠ 2 ^ 52 ∨ q = -1074
  · exact ⟨(interval_regular m q x hm hreg h).1, (interval_regular m q x hm hreg h).2.1⟩
  · have hm2 : m = 2 ^ 52 := by
      by_contra hc
      exact hreg (Or.inl hc)
    have hq : q ≠ -1074 := fun hc => hreg (Or.inr hc)
    subst hm2
    obtain ⟨h1, h2⟩ := interval_border q x hq h
    have hp := two_zpow_pos q
    push_cast
    constructor
    · nlinarith
    · exact h2

theorem interval_range (m : Nat) (q : Int) (x : ℚ) (hm : 0 < m) (hm2 : m < 2 ^ 53)
    (hq1 : -1074 ≤ q) (hq2 : q ≤ 971) (h : InRoundingInterval m q x) :
    (2 : ℚ) ^ (-1075 : Int) ≤ x ∧ x < (2 : ℚ) ^ (1024 : Int) := by
  obtain ⟨h1, h2⟩ := interval_weak m q x hm h
  have hp := two_zpow_pos q
  have hmq : (1 : ℚ) ≤ m := by exact_mod_cast hm
  have hmq2 : (m : ℚ) + 1 ≤ 2 ^ 53 := by exact_mod_cast hm2
  have hlo : (2 : ℚ) ^ (-1074 : Int) ≤ 2 ^ q := zpow_le_zpow_right₀ (by norm_num) hq1
  have hhi : (2 : ℚ) ^ q ≤ 2 ^ (971 : Int) := zpow_le_zpow_right₀ (by norm_num) hq2
  have e1 : (2 : ℚ) ^ (-1075 : Int) = 2 ^ (-1074 : Int) / 2 := by
    rw [← two_zpow_sub_one]
    norm_num
  have e2 : (2 : ℚ) ^ (1024 : Int) = 2 ^ 53 * 2 ^ (971 : Int) := by
    have := two_zpow_add_nat 971 53
    rw [← this]
    norm_num
  have hp971 := two_zpow_pos 971
  have hmul : (1 / 2 : ℚ) * 2 ^ q ≤ ((m : ℚ) - 1 / 2) * 2 ^ q :=
    mul_le_mul_of_nonneg_right (by linarith) (le_of_lt hp)
  have key : ∀ a b y : ℚ, a ≤ b → 1 / 2 * b ≤ y → y ≤ x → a / 2 ≤ x := by
    intro a b y k1 k2 k3
    linarith
  constructor
  · rw [e1]
    exact key _ _ _ hlo hmul h1
  · rw [e2]
    nlinarith

theorem pow_two_lt_pow_ten (a b : Nat) (h : (2 : Nat) ^ a < 10 ^ b) :
    (2 : ℚ) ^ a < (10 : ℚ) ^ b := by
  exact_mod_cast h

theorem pow_ten_small : (10 : ℚ) ^ (-324 : Int) < 2 ^ (-1075 : Int) := by
  have hq : (2 : ℚ) ^ (1075 : Nat) < 10 ^ (324 : Nat) := pow_two_lt_pow_ten 1075 324 (by decide!)
  have e1 : (10 : ℚ) ^ (-324 : Int) = (10 ^ (324 : Nat))⁻¹ := by
    rw [← zpow_natCast, ← zpow_neg]
    norm_num
  have e2 : (2 : ℚ) ^ (-1075 : Int) = (2 ^ (1075 : Nat))⁻¹ := by
    rw [← zpow_natCast, ← zpow_neg]
    norm_num
  rw [e1, e2]
  exact (inv_lt_inv₀ (by positivity) (by positivity)).2 hq

theorem pow_ten_large : (2 : ℚ) ^ (1024 : Int) < 10 ^ (309 : Int) := by
  have hq : (2 : ℚ) ^ (1024 : Nat) < 10 ^ (309 : Nat) := pow_two_lt_pow_ten 1024 309 (by decide!)
  have e1 : (10 : ℚ) ^ (309 : Int) = 10 ^ (309 : Nat) := by
    rw [← zpow_natCast]
    norm_num
  have e2 : (2 : ℚ) ^ (1024 : Int) = 2 ^ (1024 : Nat) := by
    rw [← zpow_natCast]
    norm_num
  rw [e1, e2]
  exact hq

theorem decimal_exponent_bound (D : Nat) (k : Int) (nd : Nat) (hD1 : 10 ^ (nd - 1) ≤ D)
    (hD2 : D < 10 ^ nd) (hnd : 1 ≤ nd) (hlo : (2 : ℚ) ^ (-1075 : Int) ≤ (D : ℚ) * 10 ^ k)
    (hhi : (D : ℚ) * 10 ^ k < (2 : ℚ) ^ (1024 : Int)) :
    ((nd : Int) + k - 1).natAbs < 1000 := by
  have hk : (0 : ℚ) < 10 ^ k := zpow_pos (by norm_num) k
  have hD1q : (10 : ℚ) ^ (nd - 1 : Nat) ≤ D := by exact_mod_cast hD1
  have hD2q : (D : ℚ) < 10 ^ (nd : Nat) := by exact_mod_cast hD2
  have hup : (D : ℚ) * 10 ^ k < 10 ^ ((nd : Int) + k) := by
    rw [zpow_add₀ (by norm_num), zpow_natCast]
    exact mul_lt_mul_of_pos_right hD2q hk
  have hdn : (10 : ℚ) ^ ((nd : Int) + k - 1) ≤ (D : ℚ) * 10 ^ k := by
    have e : (nd : Int) + k - 1 = ((nd - 1 : Nat) : Int) + k := by omega
    rw [e, zpow_add₀ (by norm_num), zpow_natCast]
    exact mul_le_mul_of_nonneg_right hD1q (le_of_lt hk)
  have b1 : -324 < (nd : Int) + k := by
    by_contra hc
    have hle : (10 : ℚ) ^ ((nd : Int) + k) ≤ 10 ^ (-324 : Int) :=
      zpow_le_zpow_right₀ (by norm_num) (by omega)
    have := pow_ten_small
    linarith
  have b2 : (nd : Int) + k - 1 < 309 := by
    by_contra hc
    have hle : (10 : ℚ) ^ (309 : Int) ≤ 10 ^ ((nd : Int) + k - 1) :=
      zpow_le_zpow_right₀ (by norm_num) (by omega)
    have := pow_ten_large
    linarith
  omega

theorem ParseDecimalFloat_inf :
    ParseDecimalFloat (str "+Inf") = some ⟨Fin.ofNat (0 + 2047 * 2 ^ 52)⟩ ∧
      ParseDecimalFloat (str "-Inf") = some ⟨Fin.ofNat (2 ^ 63 + 2047 * 2 ^ 52)⟩ := by
  constructor <;> decide

theorem ParseDecimalFloat_zero (neg : Bool) :
    ParseDecimalFloat (fmtG neg ⟨[], 0⟩) = some ⟨Fin.ofNat (if neg = true then 2 ^ 63 else 0)⟩ := by
  cases neg <;> decide

/-- A float64 that is not NaN is read back from its rendering with the verb v:
the parser gives the same bits. -/
theorem ParseDecimalFloat_sprintfV (f : GoFloat64) (h : f.isNaN = false) :
    ParseDecimalFloat (sprintfV f) = some f := by
  obtain ⟨hb, he, hmf⟩ := f.bits_decomp
  unfold sprintfV
  by_cases hfin : f.expField = 2047
  · have hm0 : f.mantField = 0 := by
      unfold GoFloat64.isNaN at h
      simpa [hfin] using h
    rw [if_pos hfin, if_neg (by simp [hm0])]
    by_cases hn : f.neg = true
    · rw [if_pos hn, ParseDecimalFloat_inf.2]
      refine congrArg some (GoFloat64.eq_of_val f _ ?_)
      rw [hb, if_pos hn, hfin, hm0]
      omega
    · rw [if_neg hn, ParseDecimalFloat_inf.1]
      refine congrArg some (GoFloat64.eq_of_val f _ ?_)
      rw [hb, if_neg hn, hfin, hm0]
      omega
  · rw [if_neg hfin]
    by_cases hm : f.mant = 0
    · have hz : f.expField = 0 ∧ f.mantField = 0 := by
        unfold GoFloat64.mant at hm
        split_ifs at hm with h0
        · exact ⟨h0, hm⟩
        · omega
      have e : ryuFtoaShortest f.mant f.exp = ⟨[], 0⟩ := by
        unfold ryuFtoaShortest
        rw [if_pos hm]
      rw [e, ParseDecimalFloat_zero]
      refine congrArg some (GoFloat64.eq_of_val f _ ?_)
      rw [hb, hz.1, hz.2]
      omega
    · have hmpos : 0 < f.mant := Nat.pos_of_ne_zero hm
      have hint := shortestDecimal_interval f.mant f.exp hmpos
      have hrange : (2 : ℚ) ^ (-1075 : Int) ≤
          ((shortestDecimal f.mant f.exp).1 : ℚ) * 10 ^ (shortestDecimal f.mant f.exp).2 ∧
          ((shortestDecimal f.mant f.exp).1 : ℚ) * 10 ^ (shortestDecimal f.mant f.exp).2 <
            (2 : ℚ) ^ (1024 : Int) := by
        rcases f.finite_fields hfin with ⟨h1, h2, -, -⟩ | ⟨h1, h2, h3, h4, -, -⟩
        · exact interval_range _ _ _ hmpos (by omega) (by omega) (by omega) hint
        · exact interval_range _ _ _ hmpos h2 h3 h4 hint
      have hDpos : 0 < (shortestDecimal f.mant f.exp).1 := by
        apply Nat.pos_of_ne_zero
        intro h0
        have hl := hrange.1
        rw [h0] at hl
        have := two_zpow_pos (-1075)
        simp only [Nat.cast_zero, zero_mul] at hl
        linarith
      obtain ⟨d1, d2, d3⟩ := decimalDigits_spec (shortestDecimal f.mant f.exp).1
      obtain ⟨d4, d5, d6⟩ := d3 hDpos
      have hne : decimalDigits (shortestDecimal f.mant f.exp).1 ≠ [] := by
        intro h0
        rw [h0] at d6
        simp at d6
      have hexp := decimal_exponent_bound _ _ _ d4 d5 d6 hrange.1 hrange.2
      have e : ryuFtoaShortest f.mant f.exp =
          ⟨decimalDigits (shortestDecimal f.mant f.exp).1,
            ((decimalDigits (shortestDecimal f.mant f.exp).1).length : Int) +
              (shortestDecimal f.mant f.exp).2⟩ := by
        unfold ryuFtoaShortest
        rw [if_neg hm]
      obtain ⟨p, hp1, hp2⟩ := ParseDecimalFloat_fmtG f.neg _ _ d1 hne hexp
      rw [e, hp1]
      apply roundFloat64_of_interval f hfin hmpos
      rw [hp2, d2]
      exact hint

/-! ## Properties of the option layer -/

theorem str_latitude_ne_longitude : str "latitude" ≠ str "longitude" := by decide

theorem str_location_ne_latitude : str "location" ≠ str "latitude" := by decide

theorem str_location_ne_longitude : str "location" ≠ str "longitude" := by decide

theorem str_term_ne_location : str "term" ≠ str "location" := by decide

/-- C1. `CoordinateOptions.getParameters` returns its error exactly when the
latitude or the longitude is unset and returns no error exactly when both are
set. The error result is the same for all numeric values under the same `Valid`
flags; in particular coordinates set to 0.0 are accepted. -/
theorem CoordinateOptions.coordinateParameters_error_iff (fmtV : GoFloat64 → GoString)
    (o : CoordinateOptions) :
    ((o.getParameters fmtV).2 = some Error.coordinatesRequired ↔
        (o.Latitude.Valid = false ∨ o.Longitude.Valid = false)) ∧
      ((o.getParameters fmtV).2 = none ↔
        (o.Latitude.Valid = true ∧ o.Longitude.Valid = true)) ∧
      (∀ lat long : GoFloat64,
        (CoordinateOptions.getParameters fmtV
            ⟨⟨lat, o.Latitude.Valid⟩, ⟨long, o.Longitude.Valid⟩⟩).2 =
          (o.getParameters fmtV).2) ∧
      (CoordinateOptions.getParameters fmtV
          ⟨NullFloat.FloatFrom ⟨0⟩, NullFloat.FloatFrom ⟨0⟩⟩).2 = none := by
  obtain ⟨⟨lat, a⟩, ⟨long, b⟩⟩ := o
  cases a <;> cases b <;> simp [CoordinateOptions.getParameters, NullFloat.FloatFrom]

theorem sprintfV_testLatitude : sprintfV testLatitude = str "37.9" := by decide!

theorem sprintfV_testLongitude : sprintfV testLongitude = str "-122.5" := by decide!

theorem sprintfV_isNaN (f : GoFloat64) (h : f.isNaN = true) : sprintfV f = str "NaN" := by
  unfold GoFloat64.isNaN at h
  rw [Bool.and_eq_true, decide_eq_true_eq, decide_eq_true_eq] at h
  unfold sprintfV
  rw [if_pos h.1, if_pos h.2]

theorem GoFloat64.equal_isNaN (x y : GoFloat64) (h : y.isNaN = true) : x.equal y = false := by
  unfold GoFloat64.equal
  rw [h]
  simp

/-- C2, as stated, fails. A set NaN passes the guard of
`CoordinateOptions.getParameters` and is rendered as `NaN`. No parser gives
every set latitude back from the value under `latitude`: not as a float64 equal
to the input by the comparison `==` of Go, which is false for a NaN, and not as
the same bits, since two different NaN have the same rendering. -/
theorem CoordinateOptions.coordinateParameters_nan :
    CoordinateOptions.getParameters sprintfV
        ⟨NullFloat.FloatFrom testNaN, NullFloat.FloatFrom testLongitude⟩ =
        (StringMap.make [(str "latitude", str "NaN"), (str "longitude", str "-122.5")], none) ∧
      (¬ ∃ parse : GoString → Option GoFloat64, ∀ o : CoordinateOptions,
        o.Latitude.Valid = true → o.Longitude.Valid = true →
        ∃ x, ((o.getParameters sprintfV).1.get (str "latitude")).bind parse = some x ∧
          x.equal o.Latitude.Float64 = true) ∧
      (¬ ∃ parse : GoString → Option GoFloat64, ∀ o : CoordinateOptions,
        o.Latitude.Valid = true → o.Longitude.Valid = true →
        ((o.getParameters sprintfV).1.get (str "latitude")).bind parse =
          some o.Latitude.Float64) := by
  refine ⟨by decide!, ?_, ?_⟩
  · rintro ⟨parse, h⟩
    obtain ⟨x, -, hx⟩ :=
      h ⟨NullFloat.FloatFrom testNaN, NullFloat.FloatFrom testLongitude⟩ rfl rfl
    rw [GoFloat64.equal_isNaN x _ (by decide)] at hx
    exact absurd hx (by decide)
  · rintro ⟨parse, h⟩
    have h1 := h ⟨NullFloat.FloatFrom testNaN, NullFloat.FloatFrom testLongitude⟩ rfl rfl
    have h2 := h ⟨NullFloat.FloatFrom ⟨0x7FF8000000000002⟩, NullFloat.FloatFrom testLongitude⟩
      rfl rfl
    have e1 : (CoordinateOptions.getParameters sprintfV
        ⟨NullFloat.FloatFrom testNaN, NullFloat.FloatFrom testLongitude⟩).1.get
        (str "latitude") = some (str "NaN") := by decide!
    have e2 : (CoordinateOptions.getParameters sprintfV
        ⟨NullFloat.FloatFrom ⟨0x7FF8000000000002⟩, NullFloat.FloatFrom testLongitude⟩).1.get
        (str "latitude") = some (str "NaN") := by decide!
    rw [e1] at h1
    rw [e2, h1] at h2
    exact absurd (Option.some.inj h2) (by decide)

/-- C2, amended. With both coordinates set, `CoordinateOptions.getParameters`
succeeds with the map of exactly the two keys `latitude` and `longitude`; the
value under `latitude` is the rendering `fmt.Sprintf("%v", f)` of the latitude
and the value under `longitude` that of the longitude. A coordinate that is not
NaN is read back from the value of its key by the decimal parser, bit for bit;
a NaN is rendered as `NaN`. For the latitude 37.9 and the longitude -122.5 the
map is `latitude=37.9`, `longitude=-122.5`. -/
theorem CoordinateOptions.coordinateParameters_parse_back (o : CoordinateOptions)
    (hlat : o.Latitude.Valid = true) (hlong : o.Longitude.Valid = true) :
    o.getParameters sprintfV =
        (StringMap.make [(str "latitude", sprintfV o.Latitude.Float64),
          (str "longitude", sprintfV o.Longitude.Float64)], none) ∧
      (∀ k, k ∈ (o.getParameters sprintfV).1.keys ↔
        (k = str "latitude" ∨ k = str "longitude")) ∧
      (o.getParameters sprintfV).1.get (str "latitude") = some (sprintfV o.Latitude.Float64) ∧
      (o.getParameters sprintfV).1.get (str "longitude") =
        some (sprintfV o.Longitude.Float64) ∧
      (o.Latitude.Float64.isNaN = false →
        ((o.getParameters sprintfV).1.get (str "latitude")).bind ParseDecimalFloat =
          some o.Latitude.Float64) ∧
      (o.Longitude.Float64.isNaN = false →
        ((o.getParameters sprintfV).1.get (str "longitude")).bind ParseDecimalFloat =
          some o.Longitude.Float64) ∧
      (o.Latitude.Float64.isNaN = true →
        (o.getParameters sprintfV).1.get (str "latitude") = some (str "NaN")) ∧
      (o.Longitude.Float64.isNaN = true →
        (o.getParameters sprintfV).1.get (str "longitude") = some (str "NaN")) ∧
      (o.Latitude.Float64 = testLatitude → o.Longitude.Float64 = testLongitude →
        (o.getParameters sprintfV).1 =
          StringMap.make [(str "latitude", str "37.9"), (str "longitude", str "-122.5")]) := by
  have hne := str_latitude_ne_longitude
  have h : o.getParameters sprintfV =
      (StringMap.make [(str "latitude", sprintfV o.Latitude.Float64),
        (str "longitude", sprintfV o.Longitude.Float64)], none) := by
    simp [CoordinateOptions.getParameters, hlat, hlong, Entries.set, hne]
  have hg1 : (o.getParameters sprintfV).1.get (str "latitude") =
      some (sprintfV o.Latitude.Float64) := by
    rw [h]
    simp [StringMap.get, StringMap.entries, Entries.get]
  have hg2 : (o.getParameters sprintfV).1.get (str "longitude") =
      some (sprintfV o.Longitude.Float64) := by
    rw [h]
    simp [StringMap.get, StringMap.entries, Entries.get, hne]
  refine ⟨h, ?_, hg1, hg2, ?_, ?_, ?_, ?_, ?_⟩
  · intro k
    rw [h]
    simp [StringMap.keys, StringMap.entries, Entries.keys]
  · intro hn
    rw [hg1, Option.some_bind]
    exact ParseDecimalFloat_sprintfV _ hn
  · intro hn
    rw [hg2, Option.some_bind]
    exact ParseDecimalFloat_sprintfV _ hn
  · intro hn
    rw [hg1, sprintfV_isNaN _ hn]
  · intro hn
    rw [hg2, sprintfV_isNaN _ hn]
  · intro h1 h2
    rw [h, h1, h2, sprintfV_testLatitude, sprintfV_testLongitude]

/-- Witness of C2: the coordinates of `TestCoordinateOptions`, 37.9 and -122.5.
The map is `latitude=37.9`, `longitude=-122.5` and the latitude is read back
from it. -/
theorem CoordinateOptions.coordinateParameters_parse_back_witness :
    testCoordinateOptions.Latitude.Valid = true ∧
      testCoordinateOptions.Longitude.Valid = true ∧
      (testCoordinateOptions.getParameters sprintfV).1 =
        StringMap.make [(str "latitude", str "37.9"), (str "longitude", str "-122.5")] ∧
      ((testCoordinateOptions.getParameters sprintfV).1.get (str "latitude")).bind
        ParseDecimalFloat = some testLatitude :=
  ⟨rfl, rfl,
    (CoordinateOptions.coordinateParameters_parse_back testCoordinateOptions rfl rfl).2.2.2.2.2.2.2.2
      rfl rfl,
    (CoordinateOptions.coordinateParameters_parse_back testCoordinateOptions rfl rfl).2.2.2.2.1
      (by decide)⟩

/-- C3. `LocationOptions.getParameters` returns its error exactly when the
location is the empty string and the coordinate hint is nil or has an unset
latitude or an unset longitude; otherwise it returns no error. -/
theorem LocationOptions.locationParameters_error_iff (fmtV : GoFloat64 → GoString)
    (o : LocationOptions) :
    ((o.getParameters fmtV).2 = some Error.locationRequired ↔
        (o.Location = [] ∧
          (o.CoordinateOptions = none ∨
            ∃ c, o.CoordinateOptions = some c ∧
              (c.Latitude.Valid = false ∨ c.Longitude.Valid = false)))) ∧
      ((o.getParameters fmtV).2 ≠ none ↔
        (o.getParameters fmtV).2 = some Error.locationRequired) := by
  obtain ⟨loc, hint⟩ := o
  cases hint with
  | none =>
    by_cases hl : loc = [] <;>
      simp [LocationOptions.getParameters, LocationOptions.coordinatesProvided, hl]
  | some c =>
    obtain ⟨⟨lat, a⟩, ⟨long, b⟩⟩ := c
    by_cases hl : loc = [] <;> cases a <;> cases b <;>
      simp [LocationOptions.getParameters, LocationOptions.coordinatesProvided, hl]

/-- C4. When `LocationOptions.getParameters` succeeds, the keys of the map are
`location` if the location is not empty together with `latitude` and
`longitude` if the hint is complete, and no other; `location` holds the input
text and `latitude`, `longitude` hold the renderings of the values of the hint.
Text with a complete hint gives the three keys, the empty text with a complete
hint gives `latitude` and `longitude` only, and text with a nil or incomplete
hint gives `location` only. -/
theorem LocationOptions.locationParameters_keys (fmtV : GoFloat64 → GoString)
    (o : LocationOptions) (hok : (o.getParameters fmtV).2 = none) :
    (∀ k, k ∈ (o.getParameters fmtV).1.keys ↔
        ((k = str "location" ∧ o.Location ≠ []) ∨
          ((k = str "latitude" ∨ k = str "longitude") ∧ o.coordinatesProvided = true))) ∧
      (o.Location ≠ [] → (o.getParameters fmtV).1.get (str "location") = some o.Location) ∧
      (∀ c, o.CoordinateOptions = some c → c.Latitude.Valid = true → c.Longitude.Valid = true →
        (o.getParameters fmtV).1.get (str "latitude") = some (fmtV c.Latitude.Float64) ∧
          (o.getParameters fmtV).1.get (str "longitude") = some (fmtV c.Longitude.Float64)) ∧
      (∀ c, o.CoordinateOptions = some c → c.Latitude.Valid = true → c.Longitude.Valid = true →
        o.Location ≠ [] →
        (o.getParameters fmtV).1 =
          StringMap.make [(str "location", o.Location),
            (str "latitude", fmtV c.Latitude.Float64),
            (str "longitude", fmtV c.Longitude.Float64)]) ∧
      (∀ c, o.CoordinateOptions = some c → c.Latitude.Valid = true → c.Longitude.Valid = true →
        o.Location = [] →
        (o.getParameters fmtV).1 =
          StringMap.make [(str "latitude", fmtV c.Latitude.Float64),
            (str "longitude", fmtV c.Longitude.Float64)]) ∧
      (o.coordinatesProvided = false → o.Location ≠ [] →
        (o.getParameters fmtV).1 = StringMap.make [(str "location", o.Location)]) := by
  have h1 := str_latitude_ne_longitude
  have h2 := str_location_ne_latitude
  have h3 := str_location_ne_longitude
  obtain ⟨loc, hint⟩ := o
  cases hint with
  | none =>
    by_cases hl : loc = []
    · simp [LocationOptions.getParameters, LocationOptions.coordinatesProvided, hl] at hok
    · simp [LocationOptions.getParameters, LocationOptions.coordinatesProvided, hl,
        StringMap.keys, StringMap.entries, Entries.keys, StringMap.get, Entries.get, Entries.set]
  | some c =>
    obtain ⟨⟨lat, a⟩, ⟨long, b⟩⟩ := c
    by_cases hl : loc = [] <;> cases a <;> cases b <;>
      simp [LocationOptions.getParameters, LocationOptions.coordinatesProvided, hl] at hok <;>
      simp [LocationOptions.getParameters, LocationOptions.coordinatesProvided, hl,
        StringMap.keys, StringMap.entries, Entries.keys, StringMap.get, Entries.get, Entries.set,
        h1, h2, h3, h1.symm, h2.symm, h3.symm]

/-- Witness of C4: the location `Berkeley` with the complete hint of the test
coordinates. -/
theorem LocationOptions.locationParameters_keys_witness :
    (LocationOptions.getParameters testFmtV
        ⟨str "Berkeley", some testCoordinateOptions⟩).2 = none ∧
      (LocationOptions.getParameters testFmtV ⟨str "Berkeley", some testCoordinateOptions⟩).1 =
        StringMap.make [(str "location", str "Berkeley"), (str "latitude", str "37.9"),
          (str "longitude", str "-122.5")] :=
  ⟨rfl,
    (LocationOptions.locationParameters_keys testFmtV ⟨str "Berkeley", some testCoordinateOptions⟩
      rfl).2.2.2.1 testCoordinateOptions rfl rfl rfl (by decide)⟩

/-! ## Escaping and unescaping -/

theorem forall_byte (p : Fin 256 → Bool) (h : (List.finRange 256).all p = true) (c : Fin 256) :
    p c = true :=
  List.all_eq_true.1 h c (List.mem_finRange c)

theorem escapeByte_cases (c : Fin 256) :
    (escapeByte c = [c] ∧ c ≠ byte '%' ∧ c ≠ byte '+') ∨
      (escapeByte c = [byte '+'] ∧ c = byte ' ') ∨
      (escapeByte c = [byte '%', upperhex (c.val / 16), upperhex (c.val % 16)] ∧
        (ishex (upperhex (c.val / 16)) && ishex (upperhex (c.val % 16))) = true ∧
        Fin.ofNat (unhex (upperhex (c.val / 16)) * 16 + unhex (upperhex (c.val % 16))) = c) := by
  have h := forall_byte
    (fun c => (escapeByte c == [c] && c != byte '%' && c != byte '+') ||
      (escapeByte c == [byte '+'] && c == byte ' ') ||
      (escapeByte c == [byte '%', upperhex (c.val / 16), upperhex (c.val % 16)] &&
        (ishex (upperhex (c.val / 16)) && ishex (upperhex (c.val % 16))) &&
        Fin.ofNat (unhex (upperhex (c.val / 16)) * 16 + unhex (upperhex (c.val % 16))) == c))
    (by decide!) c
  simpa [Bool.or_eq_true, Bool.and_eq_true, or_assoc, and_assoc] using h

theorem escapeByte_clean (c : Fin 256) :
    ∀ b ∈ escapeByte c, b ≠ byte '&' ∧ b ≠ byte '=' ∧ b ≠ byte ';' := by
  have h := forall_byte
    (fun c => (escapeByte c).all (fun b => b != byte '&' && b != byte '=' && b != byte ';'))
    (by decide!) c
  simpa [List.all_eq_true, and_assoc] using h

theorem QueryEscape_clean (s : GoString) :
    ∀ b ∈ QueryEscape s, b ≠ byte '&' ∧ b ≠ byte '=' ∧ b ≠ byte ';' := by
  intro b hb
  obtain ⟨c, -, hc⟩ := List.mem_flatMap.1 hb
  exact escapeByte_clean c b hc

theorem QueryUnescape_cons_ne (c : Fin 256) (t : GoString) (h : c ≠ byte '%') :
    QueryUnescape (c :: t) =
      match QueryUnescape t with
      | .ok u => .ok ((if c = byte '+' then byte ' ' else c) :: u)
      | .error e => .error e := by
  rcases t with _ | ⟨a, _ | ⟨b, t⟩⟩ <;> simp [QueryUnescape, h]

theorem QueryUnescape_percent (a b : Fin 256) (t : GoString)
    (h : (ishex a && ishex b) = true) :
    QueryUnescape (byte '%' :: a :: b :: t) =
      match QueryUnescape t with
      | .ok u => .ok (Fin.ofNat (unhex a * 16 + unhex b) :: u)
      | .error e => .error e := by
  rw [QueryUnescape, if_pos rfl, if_pos h]

theorem QueryUnescape_escapeByte (c : Fin 256) (t : GoString) :
    QueryUnescape (escapeByte c ++ t) =
      match QueryUnescape t with
      | .ok u => .ok (c :: u)
      | .error e => .error e := by
  have hpp : byte '+' ≠ byte '%' := by decide
  rcases escapeByte_cases c with ⟨h, h1, h2⟩ | ⟨h, h1⟩ | ⟨h, h1, h2⟩
  · rw [h, List.singleton_append, QueryUnescape_cons_ne c t h1, if_neg h2]
  · rw [h, List.singleton_append, QueryUnescape_cons_ne _ t hpp, if_pos rfl, h1]
  · rw [h]
    show QueryUnescape (byte '%' :: upperhex (c.val / 16) :: upperhex (c.val % 16) :: t) = _
    rw [QueryUnescape_percent _ _ t h1, h2]

theorem QueryUnescape_QueryEscape (s : GoString) : QueryUnescape (QueryEscape s) = .ok s := by
  induction s with
  | nil => rfl
  | cons c s ih =>
    have : QueryEscape (c :: s) = escapeByte c ++ QueryEscape s := by
      simp [QueryEscape]
    rw [this, QueryUnescape_escapeByte, ih]

/-! ## Cutting at a separator -/

theorem cut_append (sep : Fin 256) (a b : GoString) (h : sep ∉ a) :
    cut sep (a ++ sep :: b) = (a, b, true) := by
  induction a with
  | nil => simp [cut]
  | cons c a ih =>
    have hc : c ≠ sep := fun e => h (by simp [e])
    have ha : sep ∉ a := fun e => h (by simp [e])
    simp [cut, hc, ih ha]

theorem cut_none (sep : Fin 256) (a : GoString) (h : sep ∉ a) :
    cut sep a = (a, [], false) := by
  induction a with
  | nil => simp [cut]
  | cons c a ih =>
    have hc : c ≠ sep := fun e => h (by simp [e])
    have ha : sep ∉ a := fun e => h (by simp [e])
    simp [cut, hc, ih ha]

theorem encodePair_clean (p : GoString × GoString) :
    byte '&' ∉ encodePair p ∧ byte ';' ∉ encodePair p ∧ encodePair p ≠ [] := by
  have h1 := QueryEscape_clean p.1
  have h2 := QueryEscape_clean p.2
  have e1 : byte '&' ≠ byte '=' := by decide
  have e2 : byte ';' ≠ byte '=' := by decide
  refine ⟨?_, ?_, by simp [encodePair]⟩
  · intro h
    rcases List.mem_append.1 h with h | h
    · exact (h1 _ h).1 rfl
    · rcases List.mem_cons.1 h with h | h
      · exact e1 h
      · exact (h2 _ h).1 rfl
  · intro h
    rcases List.mem_append.1 h with h | h
    · exact (h1 _ h).2.2 rfl
    · rcases List.mem_cons.1 h with h | h
      · exact e2 h
      · exact (h2 _ h).2.2 rfl

theorem cut_encodePair (p : GoString × GoString) :
    cut (byte '=') (encodePair p) = (QueryEscape p.1, QueryEscape p.2, true) :=
  cut_append _ _ _ (fun h => (QueryEscape_clean p.1 _ h).2.1 rfl)

/-! ## Maps as lists of entries -/

theorem Entries.get_eq_none {V : Type} (m : Entries V) (k : GoString) (h : k ∉ m.keys) :
    Entries.get m k = none := by
  induction m with
  | nil => rfl
  | cons p m ih =>
    obtain ⟨k', v'⟩ := p
    have h1 : k' ≠ k := fun e => h (by simp [Entries.keys, e])
    have h2 : k ∉ Entries.keys m := fun e => h (by
      simp only [Entries.keys, List.map_cons, List.mem_cons]
      exact Or.inr e)
    simp [Entries.get, h1, ih h2]

theorem Entries.set_of_not_mem {V : Type} (m : Entries V) (k : GoString) (v : V)
    (h : k ∉ m.keys) : Entries.set m k v = m ++ [(k, v)] := by
  induction m with
  | nil => rfl
  | cons p m ih =>
    obtain ⟨k', v'⟩ := p
    have h1 : k' ≠ k := fun e => h (by simp [Entries.keys, e])
    have h2 : k ∉ Entries.keys m := fun e => h (by
      simp only [Entries.keys, List.map_cons, List.mem_cons]
      exact Or.inr e)
    simp [Entries.set, h1, ih h2]

theorem Entries.get_isSome {V : Type} (m : Entries V) (k : GoString) (h : k ∈ m.keys) :
    ∃ v, Entries.get m k = some v := by
  induction m with
  | nil => simp [Entries.keys] at h
  | cons p m ih =>
    obtain ⟨k', v'⟩ := p
    by_cases h1 : k' = k
    · exact ⟨v', by simp [Entries.get, h1]⟩
    · have h2 : k ∈ Entries.keys m := by
        simp only [Entries.keys, List.map_cons, List.mem_cons] at h
        rcases h with h | h
        · exact absurd h.symm h1
        · exact h
      obtain ⟨v, hv⟩ := ih h2
      exact ⟨v, by simp [Entries.get, h1, hv]⟩

theorem Entries.get_eq_some_iff {V : Type} (m : Entries V) (k : GoString) (v : V)
    (hnd : m.keys.Nodup) : Entries.get m k = some v ↔ (k, v) ∈ m := by
  induction m with
  | nil => simp [Entries.get]
  | cons p m ih =>
    obtain ⟨k', v'⟩ := p
    simp only [Entries.keys, List.map_cons, List.nodup_cons] at hnd
    by_cases h1 : k' = k
    · subst h1
      have hno : (k', v) ∉ m := fun hm => hnd.1 (List.mem_map_of_mem Prod.fst hm)
      simp only [Entries.get, if_true, Option.some.injEq, List.mem_cons, Prod.mk.injEq,
        true_and]
      constructor
      · intro e
        exact Or.inl e.symm
      · rintro (e | e)
        · exact e.symm
        · exact absurd e hno
    · have hne : (k, v) ≠ (k', v') := fun e => h1 (by simp at e; exact e.1.symm)
      simp only [Entries.get, if_neg h1, List.mem_cons, hne, false_or]
      exact ih hnd.2

theorem Entries.get_perm {V : Type} (m m' : Entries V) (k : GoString) (h : m.Perm m')
    (hnd : m.keys.Nodup) : Entries.get m k = Entries.get m' k := by
  have hnd' : m'.keys.Nodup := (List.Perm.nodup_iff (h.map Prod.fst)).1 hnd
  apply Option.ext
  intro v
  rw [Option.mem_def, Option.mem_def, Entries.get_eq_some_iff m k v hnd,
    Entries.get_eq_some_iff m' k v hnd']
  exact h.mem_iff

theorem Entries.get_map_values {V W : Type} (g : V → W) (m : Entries V) (k : GoString) :
    Entries.get (m.map (fun kv => (kv.1, g kv.2))) k = (Entries.get m k).map g := by
  induction m with
  | nil => rfl
  | cons p m ih =>
    obtain ⟨k', v'⟩ := p
    by_cases h1 : k' = k <;> simp [Entries.get, h1, ih]

theorem Entries.get_map_keys {V : Type} (g : GoString → V) (ks : List GoString)
    (k : GoString) :
    Entries.get (ks.map (fun k => (k, g k))) k = if k ∈ ks then some (g k) else none := by
  induction ks with
  | nil => rfl
  | cons k' ks ih =>
    by_cases h1 : k' = k
    · simp [Entries.get, h1]
    · have h2 : ¬ k = k' := fun e => h1 e.symm
      simp [Entries.get, h1, h2, ih]

theorem Values.foldl_Set (es : Entries GoString) (m : Values) (hnd : es.keys.Nodup)
    (hdis : ∀ k ∈ es.keys, k ∉ Entries.keys m) :
    es.foldl (fun q kv => Values.Set q kv.1 kv.2) m =
      m ++ es.map (fun kv => (kv.1, [kv.2])) := by
  induction es generalizing m with
  | nil => simp
  | cons p es ih =>
    obtain ⟨k, v⟩ := p
    simp only [Entries.keys, List.map_cons, List.nodup_cons] at hnd
    have hk : k ∉ Entries.keys m := hdis k (by simp [Entries.keys])
    have hstep : Values.Set m k v = m ++ [(k, [v])] := Entries.set_of_not_mem m k [v] hk
    rw [List.foldl_cons, hstep, ih (m ++ [(k, [v])]) hnd.2]
    · simp
    · intro k' hk' hmem
      simp only [Entries.keys, List.map_append, List.map_cons, List.map_nil, List.mem_append,
        List.mem_singleton] at hmem
      rcases hmem with hmem | hmem
      · exact hdis k' (by
          simp only [Entries.keys, List.map_cons, List.mem_cons]
          exact Or.inr hk') hmem
      · exact hnd.1 (hmem ▸ hk')

theorem Values.foldl_Add (g : GoString → GoString) (ks : List GoString) (m : Values)
    (hnd : ks.Nodup) (hdis : ∀ k ∈ ks, k ∉ Entries.keys m) :
    ks.foldl (fun m k => Values.Add m k (g k)) m = m ++ ks.map (fun k => (k, [g k])) := by
  induction ks generalizing m with
  | nil => simp
  | cons k ks ih =>
    simp only [List.nodup_cons] at hnd
    have hk : k ∉ Entries.keys m := hdis k (by simp)
    have hstep : Values.Add m k (g k) = m ++ [(k, [g k])] := by
      simp only [Values.Add, Entries.get_eq_none m k hk, Option.getD_none, List.nil_append,
        Entries.set_of_not_mem m k [g k] hk]
    rw [List.foldl_cons, hstep, ih (m ++ [(k, [g k])]) hnd.2]
    · simp
    · intro k' hk' hmem
      simp only [Entries.keys, List.map_append, List.map_cons, List.map_nil, List.mem_append,
        List.mem_singleton] at hmem
      rcases hmem with hmem | hmem
      · exact hdis k' (List.mem_cons_of_mem _ hk') hmem
      · exact hnd.1 (hmem ▸ hk')

/-! ## Encoding and parsing a query string -/

theorem encodePair_ne_nil (p : GoString × GoString) : encodePair p ≠ [] :=
  (encodePair_clean p).2.2

theorem encodeKey_single (q : Values) (buf k v : GoString) (h : Entries.get q k = some [v]) :
    encodeKey q buf k =
      (if buf.length > 0 then buf ++ [byte '&'] else buf) ++ encodePair (k, v) := by
  simp [encodeKey, h, encodePair]

theorem foldl_encodeKey_append (q : Values) (g : GoString → GoString) (ks : List GoString)
    (buf : GoString) (hbuf : buf ≠ []) (h : ∀ k ∈ ks, Entries.get q k = some [g k]) :
    ks.foldl (encodeKey q) buf =
      buf ++ ks.flatMap (fun k => byte '&' :: encodePair (k, g k)) := by
  induction ks generalizing buf with
  | nil => simp
  | cons k ks ih =>
    have hlen : buf.length > 0 := List.length_pos.2 hbuf
    have hk := encodeKey_single q buf k (g k) (h k (by simp))
    rw [if_pos hlen] at hk
    rw [List.foldl_cons, hk, ih _ (by simp) (fun k' hk' => h k' (List.mem_cons_of_mem _ hk'))]
    simp

theorem foldl_encodeKey (q : Values) (g : GoString → GoString) (ks : List GoString)
    (h : ∀ k ∈ ks, Entries.get q k = some [g k]) :
    ks.foldl (encodeKey q) [] = queryOf g ks := by
  cases ks with
  | nil => rfl
  | cons k ks =>
    have hk := encodeKey_single q [] k (g k) (h k (by simp))
    simp only [List.length_nil, gt_iff_lt, lt_self_iff_false, if_false, List.nil_append] at hk
    rw [List.foldl_cons, hk,
      foldl_encodeKey_append q g ks _ (encodePair_ne_nil _)
        (fun k' hk' => h k' (List.mem_cons_of_mem _ hk'))]
    rfl

theorem parseQueryLoop_nil (fuel : Nat) (m : Values) (err : Option QueryError) :
    parseQueryLoop fuel m [] err = (m, err) := by
  cases fuel <;> simp [parseQueryLoop]

theorem cut_rest_length (sep : Fin 256) (q : GoString) (hq : q ≠ []) :
    (cut sep q).2.1.length < q.length := by
  induction q with
  | nil => exact absurd rfl hq
  | cons c r ih =>
    by_cases hc : c = sep
    · simp [cut, hc]
    · by_cases hr : r = []
      · simp [cut, hc, hr]
      · have := ih hr
        simp only [cut, if_neg hc, List.length_cons]
        omega

theorem parseQueryLoop_fuel (f1 f2 : Nat) (m : Values) (query : GoString)
    (err : Option QueryError) (h1 : query.length ≤ f1) (h2 : query.length ≤ f2) :
    parseQueryLoop f1 m query err = parseQueryLoop f2 m query err := by
  induction f1 generalizing f2 m query err with
  | zero =>
    have hq : query = [] := List.length_eq_zero.1 (Nat.le_zero.1 h1)
    rw [hq, parseQueryLoop_nil, parseQueryLoop_nil]
  | succ n ih =>
    by_cases hq : query = []
    · rw [hq, parseQueryLoop_nil, parseQueryLoop_nil]
    · have hlt := cut_rest_length (byte '&') query hq
      have hpos : 0 < query.length := List.length_pos.2 hq
      obtain ⟨k, rfl⟩ : ∃ k, f2 = k + 1 := ⟨f2 - 1, by omega⟩
      have hn : (cut (byte '&') query).2.1.length ≤ n := by omega
      have hk : (cut (byte '&') query).2.1.length ≤ k := by omega
      rw [parseQueryLoop, parseQueryLoop]
      simp only [hq, if_false]
      split
      · exact ih _ _ _ _ hn hk
      · split
        · exact ih _ _ _ _ hn hk
        · split
          · exact ih _ _ _ _ hn hk
          · split
            · exact ih _ _ _ _ hn hk
            · exact ih _ _ _ _ hn hk

theorem parseQueryLoop_step (fuel : Nat) (m : Values) (err : Option QueryError)
    (p : GoString × GoString) (query rest : GoString) (b : Bool)
    (hcut : cut (byte '&') query = (encodePair p, rest, b)) :
    parseQueryLoop (fuel + 1) m query err =
      parseQueryLoop fuel (Values.Add m p.1 p.2) rest err := by
  have hq : query ≠ [] := by
    intro e
    rw [e] at hcut
    simp only [cut, Prod.mk.injEq] at hcut
    exact encodePair_ne_nil p hcut.1.symm
  have hsemi := (encodePair_clean p).2.1
  rw [parseQueryLoop]
  simp only [hq, if_false, hcut, hsemi, encodePair_ne_nil p, cut_encodePair p,
    QueryUnescape_QueryEscape]

theorem queryOf_cons_cons (g : GoString → GoString) (k k' : GoString) (ks : List GoString) :
    queryOf g (k :: k' :: ks) = encodePair (k, g k) ++ byte '&' :: queryOf g (k' :: ks) := by
  simp [queryOf]

theorem parseQueryLoop_queryOf (g : GoString → GoString) (ks : List GoString) (k : GoString)
    (m : Values) (err : Option QueryError) (fuel : Nat)
    (hfuel : (queryOf g (k :: ks)).length ≤ fuel) :
    parseQueryLoop fuel m (queryOf g (k :: ks)) err =
      ((k :: ks).foldl (fun m k => Values.Add m k (g k)) m, err) := by
  induction ks generalizing k m fuel with
  | nil =>
    have hq : queryOf g [k] = encodePair (k, g k) := by simp [queryOf]
    rw [hq] at hfuel ⊢
    have hpos : 0 < (encodePair (k, g k)).length := List.length_pos.2 (encodePair_ne_nil _)
    obtain ⟨n, rfl⟩ : ∃ n, fuel = n + 1 := ⟨fuel - 1, by omega⟩
    rw [parseQueryLoop_step n m err (k, g k) _ [] false
      (cut_none _ _ (encodePair_clean _).1), parseQueryLoop_nil]
    rfl
  | cons k' ks ih =>
    rw [queryOf_cons_cons] at hfuel ⊢
    simp only [List.length_append, List.length_cons] at hfuel
    obtain ⟨n, rfl⟩ : ∃ n, fuel = n + 1 := ⟨fuel - 1, by omega⟩
    rw [parseQueryLoop_step n m err (k, g k) _ (queryOf g (k' :: ks)) true
      (cut_append _ _ _ (encodePair_clean _).1), ih k' _ n (by omega)]
    rfl

theorem ParseQuery_queryOf (g : GoString → GoString) (ks : List GoString) (hnd : ks.Nodup) :
    ParseQuery (queryOf g ks) = (ks.map (fun k => (k, [g k])), none) := by
  cases ks with
  | nil => rfl
  | cons k ks =>
    rw [ParseQuery, parseQueryLoop_queryOf g ks k [] none _ (le_refl _),
      Values.foldl_Add g (k :: ks) [] hnd (by simp [Entries.keys])]
    rfl

/-! ## The order of the keys -/

theorem strLe_total (a b : GoString) : strLe a b = true ∨ strLe b a = true := by
  induction a generalizing b with
  | nil => simp [strLe]
  | cons x a ih =>
    cases b with
    | nil => simp [strLe]
    | cons y b =>
      rcases lt_trichotomy x y with h | h | h
      · simp [strLe, h]
      · subst h
        rcases ih b with h | h <;> simp [strLe, h]
      · simp [strLe, h]

theorem strLe_trans (a b c : GoString) (h1 : strLe a b = true) (h2 : strLe b c = true) :
    strLe a c = true := by
  induction a generalizing b c with
  | nil => simp [strLe]
  | cons x a ih =>
    cases b with
    | nil => simp [strLe] at h1
    | cons y b =>
      cases c with
      | nil => simp [strLe] at h2
      | cons z c =>
        simp only [strLe, Bool.or_eq_true, decide_eq_true_eq, Bool.and_eq_true] at h1 h2 ⊢
        rcases h1 with h1 | ⟨h1, h1'⟩
        · rcases h2 with h2 | ⟨h2, -⟩
          · exact Or.inl (lt_trans h1 h2)
          · exact Or.inl (h2 ▸ h1)
        · rcases h2 with h2 | ⟨h2, h2'⟩
          · exact Or.inl (h1 ▸ h2)
          · exact Or.inr ⟨h1.trans h2, ih b c h1' h2'⟩

theorem strLe_antisymm (a b : GoString) (h1 : strLe a b = true) (h2 : strLe b a = true) :
    a = b := by
  induction a generalizing b with
  | nil =>
    cases b with
    | nil => rfl
    | cons y b => simp [strLe] at h2
  | cons x a ih =>
    cases b with
    | nil => simp [strLe] at h1
    | cons y b =>
      simp only [strLe, Bool.or_eq_true, decide_eq_true_eq, Bool.and_eq_true] at h1 h2
      rcases h1 with h1 | ⟨h1, h1'⟩
      · rcases h2 with h2 | ⟨h2, -⟩
        · exact absurd h1 (lt_asymm h2)
        · exact absurd h1 (h2 ▸ lt_irrefl _)
      · rcases h2 with h2 | ⟨-, h2'⟩
        · exact absurd h2 (h1 ▸ lt_irrefl _)
        · rw [h1, ih b h1' h2']

theorem sortKeys_perm (ks : List GoString) :
    (ks.insertionSort (fun a b => strLe a b = true)).Perm ks :=
  List.perm_insertionSort _ ks

theorem sortKeys_eq_of_perm (ks ks' : List GoString) (h : ks.Perm ks') :
    ks.insertionSort (fun a b => strLe a b = true) =
      ks'.insertionSort (fun a b => strLe a b = true) := by
  haveI : IsTotal GoString (fun a b => strLe a b = true) := ⟨strLe_total⟩
  haveI : IsTrans GoString (fun a b => strLe a b = true) := ⟨strLe_trans⟩
  haveI : IsAntisymm GoString (fun a b => strLe a b = true) := ⟨strLe_antisymm⟩
  exact List.eq_of_perm_of_sorted
    (((sortKeys_perm ks).trans h).trans (sortKeys_perm ks').symm)
    (List.sorted_insertionSort _ ks) (List.sorted_insertionSort _ ks')

/-! ## The request of `makeRequest` -/

theorem Client.newRequest_Path {σ : Type} (client : Client σ) (area id : GoString)
    (params : StringMap) :
    (client.newRequest area id params).URL.Path =
      if id ≠ [] then area ++ str "/" ++ id else area := by
  unfold Client.newRequest
  by_cases hid : id = [] <;> by_cases hp : params.len > 0 <;> simp [hid, hp]

theorem Client.newRequest_RawQuery {σ : Type} (client : Client σ) (area id : GoString)
    (params : StringMap) (hnd : params.keys.Nodup) :
    (client.newRequest area id params).URL.RawQuery =
      queryOf (fun k => (params.get k).getD [])
        (params.keys.insertionSort (fun a b => strLe a b = true)) := by
  have hraw : (client.newRequest area id params).URL.RawQuery =
      if params.len > 0 then
        Values.Encode (params.entries.foldl (fun q kv => Values.Set q kv.1 kv.2) [])
      else [] := by
    unfold Client.newRequest
    by_cases hid : id = [] <;> by_cases hp : params.len > 0 <;>
      simp [hid, hp, URL.Query, ParseQuery, parseQueryLoop, rootURL]
  rw [hraw]
  by_cases hp : params.len > 0
  · rw [if_pos hp, Values.foldl_Set params.entries [] hnd (by simp [Entries.keys]),
      List.nil_append]
    have hlen : ¬ (params.entries.map (fun kv => (kv.1, [kv.2]))).length = 0 := by
      simp only [List.length_map]
      exact Nat.pos_iff_ne_zero.1 hp
    have hkeys : Entries.keys (params.entries.map (fun kv => (kv.1, [kv.2]))) = params.keys := by
      simp [Entries.keys, StringMap.keys]
    simp only [Values.Encode, if_neg hlen, hkeys]
    apply foldl_encodeKey
    intro k hk
    have hk' : k ∈ params.entries.keys := (sortKeys_perm params.keys).mem_iff.1 hk
    obtain ⟨v, hv⟩ := Entries.get_isSome params.entries k hk'
    rw [Entries.get_map_values (fun v => [v]) params.entries k]
    simp [StringMap.get, hv]
  · rw [if_neg hp]
    have hnil : params.entries = [] := by
      cases h : params.entries with
      | nil => rfl
      | cons a b => exact absurd (by simp [StringMap.len, h]) hp
    simp [StringMap.keys, Entries.keys, hnil, queryOf]

theorem Client.newRequest_ParseQuery {σ : Type} (client : Client σ) (area id : GoString)
    (params : StringMap) (hnd : params.keys.Nodup) :
    ∃ vals, ParseQuery (client.newRequest area id params).URL.RawQuery = (vals, none) ∧
      (∀ k, Entries.get vals k = (params.get k).map (fun v => [v])) ∧
      (∀ k, k ∈ Entries.keys vals ↔ k ∈ params.keys) := by
  have hnd' : (params.keys.insertionSort (fun a b => strLe a b = true)).Nodup :=
    (List.Perm.nodup_iff (sortKeys_perm params.keys)).2 hnd
  refine ⟨(params.keys.insertionSort (fun a b => strLe a b = true)).map
    (fun k => (k, [(params.get k).getD []])), ?_, ?_, ?_⟩
  · rw [Client.newRequest_RawQuery client area id params hnd]
    exact ParseQuery_queryOf _ _ hnd'
  · intro k
    rw [Entries.get_map_keys (fun k => [(params.get k).getD []])]
    by_cases hk : k ∈ params.keys
    · rw [if_pos ((sortKeys_perm params.keys).mem_iff.2 hk)]
      obtain ⟨v, hv⟩ := Entries.get_isSome params.entries k hk
      simp [StringMap.get, hv]
    · rw [if_neg (fun h => hk ((sortKeys_perm params.keys).mem_iff.1 h))]
      simp [StringMap.get, Entries.get_eq_none params.entries k hk]
  · intro k
    have hmap : Entries.keys ((params.keys.insertionSort (fun a b => strLe a b = true)).map
        (fun k => (k, [(params.get k).getD []]))) =
        params.keys.insertionSort (fun a b => strLe a b = true) := by
      simp [Entries.keys, Function.comp_def]
    rw [hmap]
    exact (sortKeys_perm params.keys).mem_iff

theorem queryOf_congr (f g : GoString → GoString) (ks : List GoString)
    (h : ∀ k ∈ ks, f k = g k) : queryOf f ks = queryOf g ks := by
  cases ks with
  | nil => rfl
  | cons k ks =>
    simp only [queryOf]
    rw [h k (by simp)]
    congr 1
    apply List.flatMap_congr
    intro k' hk'
    rw [h k' (List.mem_cons_of_mem _ hk')]

theorem Client.newRequest_RawQuery_perm {σ : Type} (client : Client σ) (area id : GoString)
    (params params' : StringMap) (hnd : params.keys.Nodup)
    (hperm : params'.entries.Perm params.entries) :
    (client.newRequest area id params').URL.RawQuery =
      (client.newRequest area id params).URL.RawQuery := by
  have hk : params'.keys.Perm params.keys := hperm.map Prod.fst
  have hnd' : params'.keys.Nodup := (List.Perm.nodup_iff hk).2 hnd
  rw [Client.newRequest_RawQuery client area id params hnd,
    Client.newRequest_RawQuery client area id params' hnd', sortKeys_eq_of_perm _ _ hk]
  apply queryOf_congr
  intro k _
  simp only [StringMap.get]
  rw [Entries.get_perm params'.entries params.entries k hperm hnd']

/-! ## The results of `makeRequest` -/

theorem Client.makeRequest_eq {σ α : Type} (client : Client σ) (area id : GoString)
    (params : StringMap) (decode : Decoder α) (v : α) (w : World σ) :
    client.makeRequest area id params decode v w =
      ((match (client.Do (client.newRequest area id params) w).1 with
        | DoResult.failure (some response) err =>
          (response.StatusCode, some (Error.url err), v)
        | DoResult.failure none err => (500, some (Error.url err), v)
        | DoResult.response response =>
          if response.StatusCode ≠ 200 then
            (response.StatusCode, some (Error.status response.Status), v)
          else
            (response.StatusCode, (decode response.Body v).2.map Error.json,
              (decode response.Body v).1)),
        (client.Do (client.newRequest area id params) w).2) := by
  simp only [Client.makeRequest]
  rcases hx : client.Do (client.newRequest area id params) w with ⟨res, w'⟩
  rcases res with r | ⟨(_ | r), e⟩
  · by_cases h : r.StatusCode = 200 <;> simp [h]
  · simp
  · simp

theorem Client.makeRequest_world {σ α : Type} (client : Client σ) (area id : GoString)
    (params : StringMap) (decode : Decoder α) (v : α) (w : World σ) :
    (client.makeRequest area id params decode v w).2 =
      (client.Do (client.newRequest area id params) w).2 := by
  rw [Client.makeRequest_eq]

theorem Client.makeRequest_err {σ α : Type} (client : Client σ) (area id : GoString)
    (params : StringMap) (decode : Decoder α) (v : α) (w : World σ) (e : Error)
    (h : (client.makeRequest area id params decode v w).1.2.1 = some e) :
    (∃ u, e = Error.url u) ∨ (∃ s, e = Error.status s) ∨ (∃ m, e = Error.json m) := by
  rw [Client.makeRequest_eq] at h
  generalize (client.Do (client.newRequest area id params) w).1 = res at h
  rcases res with r | ⟨(_ | r), u⟩
  · by_cases h2 : r.StatusCode = 200
    · simp only [h2, ne_eq, not_true_eq_false, if_false] at h
      cases hd : (decode r.Body v).2 with
      | none => simp [hd] at h
      | some m =>
        simp only [hd, Option.map_some', Option.some.injEq] at h
        exact Or.inr (Or.inr ⟨m, h.symm⟩)
    · simp only [ne_eq, h2, not_false_eq_true, if_true, Option.some.injEq] at h
      exact Or.inr (Or.inl ⟨_, h.symm⟩)
  · simp only [Option.some.injEq] at h
    exact Or.inl ⟨u, h.symm⟩
  · simp only [Option.some.injEq] at h
    exact Or.inl ⟨u, h.symm⟩

theorem Client.DoSimpleSearch_of_location {σ : Type} (client : Client σ)
    (decode : Decoder SearchResult) (term location : GoString) (w : World σ)
    (hl : location ≠ []) :
    (client.DoSimpleSearch decode term location w).1.2 =
        (client.makeRequest searchArea [] (simpleSearchParams term location) decode
          SearchResult.zero w).1.2.1 ∧
      (client.DoSimpleSearch decode term location w).2 =
        (client.Do (client.newRequest searchArea [] (simpleSearchParams term location)) w).2 := by
  rw [← Client.makeRequest_world client searchArea [] (simpleSearchParams term location) decode
    SearchResult.zero w]
  simp only [Client.DoSimpleSearch, if_neg hl]
  split <;> simp_all

theorem Client.DoSearch_of_ok {σ Opts : Type} (client : Client σ)
    (getParameters : Opts → StringMap × Option Error) (decode : Decoder SearchResult)
    (options : Opts) (w : World σ) (hok : (getParameters options).2 = none) :
    (client.DoSearch getParameters decode options w).1.2 =
        (client.makeRequest searchArea [] (getParameters options).1 decode
          SearchResult.zero w).1.2.1 ∧
      (client.DoSearch getParameters decode options w).2 =
        (client.Do (client.newRequest searchArea [] (getParameters options).1) w).2 := by
  rw [← Client.makeRequest_world client searchArea [] (getParameters options).1 decode
    SearchResult.zero w]
  simp only [Client.DoSearch, hok]
  split <;> simp_all

theorem Client.DoSearch_of_error {σ Opts : Type} (client : Client σ)
    (getParameters : Opts → StringMap × Option Error) (decode : Decoder SearchResult)
    (options : Opts) (w : World σ) (err : Error) (h : (getParameters options).2 = some err) :
    client.DoSearch getParameters decode options w = ((SearchResult.zero, some err), w) := by
  simp only [Client.DoSearch, h]

theorem simpleSearchParams_nodup (term location : GoString) :
    (simpleSearchParams term location).keys.Nodup := by
  have h := str_term_ne_location
  simp [simpleSearchParams, StringMap.keys, StringMap.entries, Entries.keys, h]

/-! ## Properties of the client operations -/

/-- C5. `DoSimpleSearch` returns the error `errUnspecifiedLocation` exactly when
the location is the empty string, whatever the term. With the empty location
the state is unchanged, so no request reaches the transport. With another
location, also with the empty term, one request is handed to the transport: the
request to the search area whose query string decodes to exactly the keys `term`
and `location` with the two arguments as values. -/
theorem Client.DoSimpleSearch_location {σ : Type} (client : Client σ)
    (decode : Decoder SearchResult) (term location : GoString) (w : World σ) :
    ((client.DoSimpleSearch decode term location w).1.2 = some errUnspecifiedLocation ↔
        location = []) ∧
      (location = [] →
        client.DoSimpleSearch decode term location w =
          ((SearchResult.zero, some errUnspecifiedLocation), w)) ∧
      (location ≠ [] →
        (client.DoSimpleSearch decode term location w).2.calls =
            w.calls ++ [client.newRequest searchArea [] (simpleSearchParams term location)] ∧
          (client.newRequest searchArea [] (simpleSearchParams term location)).URL.Path =
            searchArea ∧
          ∃ vals,
            ParseQuery
                (client.newRequest searchArea [] (simpleSearchParams term location)).URL.RawQuery =
              (vals, none) ∧
            ∀ k, Entries.get vals k =
              if k = str "term" then some [term]
              else if k = str "location" then some [location] else none) := by
  refine ⟨?_, ?_, ?_⟩
  · constructor
    · intro h
      by_contra hl
      rw [(Client.DoSimpleSearch_of_location client decode term location w hl).1] at h
      rcases Client.makeRequest_err client _ _ _ _ _ _ _ h with ⟨u, hu⟩ | ⟨s, hs⟩ | ⟨m, hm⟩
      · exact absurd hu (by simp [errUnspecifiedLocation])
      · exact absurd hs (by simp [errUnspecifiedLocation])
      · exact absurd hm (by simp [errUnspecifiedLocation])
    · intro hl
      simp [Client.DoSimpleSearch, hl]
  · intro hl
    simp [Client.DoSimpleSearch, hl]
  · intro hl
    refine ⟨?_, ?_, ?_⟩
    · rw [(Client.DoSimpleSearch_of_location client decode term location w hl).2]
      rfl
    · rw [Client.newRequest_Path]
      simp
    · obtain ⟨vals, h1, h2, -⟩ := Client.newRequest_ParseQuery client searchArea []
        (simpleSearchParams term location) (simpleSearchParams_nodup term location)
      refine ⟨vals, h1, ?_⟩
      intro k
      rw [h2 k]
      have hne := str_term_ne_location
      by_cases hk1 : k = str "term"
      · simp [simpleSearchParams, StringMap.get, StringMap.entries, Entries.get, hk1]
      · by_cases hk2 : k = str "location"
        · simp [simpleSearchParams, StringMap.get, StringMap.entries, Entries.get, hk2, hne,
            hne.symm]
        · have hk1' : ¬ str "term" = k := fun e => hk1 e.symm
          have hk2' : ¬ str "location" = k := fun e => hk2 e.symm
          simp [simpleSearchParams, StringMap.get, StringMap.entries, Entries.get, hk1, hk2,
            hk1', hk2']

/-- Witness of C5: the empty term with the location `Berkeley` on a transport
that answers 200. -/
theorem Client.DoSimpleSearch_location_witness :
    str "Berkeley" ≠ [] ∧
      (Client.DoSimpleSearch (stubClient (DoResult.response ⟨str "200 OK", 200, []⟩))
          (stubDecoder SearchResult) [] (str "Berkeley") stubWorld).2.calls =
        stubWorld.calls ++
          [(stubClient (DoResult.response ⟨str "200 OK", 200, []⟩)).newRequest searchArea []
            (simpleSearchParams [] (str "Berkeley"))] :=
  ⟨by decide,
    ((Client.DoSimpleSearch_location (stubClient (DoResult.response ⟨str "200 OK", 200, []⟩))
      (stubDecoder SearchResult) [] (str "Berkeley") stubWorld).2.2 (by decide)).1⟩

theorem Client.GetBusiness_eq {σ : Type} (client : Client σ) (decode : Decoder Business)
    (name : GoString) (w : World σ) :
    client.GetBusiness decode name w =
      ((match (client.Do (client.newRequest businessArea name StringMap.nil) w).1 with
        | DoResult.failure (some response) err =>
          if response.StatusCode = 400 then (Business.zero, some errBusinessNotFound)
          else (Business.zero, some (Error.url err))
        | DoResult.failure none err => (Business.zero, some (Error.url err))
        | DoResult.response response =>
          if response.StatusCode = 400 then (Business.zero, some errBusinessNotFound)
          else if response.StatusCode ≠ 200 then
            (Business.zero, some (Error.status response.Status))
          else
            match (decode response.Body Business.zero).2 with
            | some msg => (Business.zero, some (Error.json msg))
            | none => ((decode response.Body Business.zero).1, none)),
        (client.Do (client.newRequest businessArea name StringMap.nil) w).2) := by
  simp only [Client.GetBusiness, Client.makeRequest_eq]
  generalize (client.Do (client.newRequest businessArea name StringMap.nil) w).1 = res
  rcases res with r | ⟨(_ | r), e⟩
  · by_cases h4 : r.StatusCode = 400
    · simp [h4]
    · by_cases h2 : r.StatusCode = 200
      · cases hd : (decode r.Body Business.zero).2 <;> simp [h2, hd]
      · simp [h2, h4]
  · simp
  · by_cases h4 : r.StatusCode = 400 <;> simp [h4]

theorem LocationOptions.locationParameters_err (fmtV : GoFloat64 → GoString)
    (o : LocationOptions) :
    (o.getParameters fmtV).2 = none ∨ (o.getParameters fmtV).2 = some Error.locationRequired := by
  unfold LocationOptions.getParameters
  simp only
  split <;> simp

theorem LocationOptions.locationParameters_ne_errBusinessNotFound (fmtV : GoFloat64 → GoString)
    (o : LocationOptions) : (o.getParameters fmtV).2 ≠ some errBusinessNotFound := by
  rcases LocationOptions.locationParameters_err fmtV o with h | h <;>
    simp [h, errBusinessNotFound]

/-- C6. `GetBusiness` returns `errBusinessNotFound` exactly when the transport
reported a response with status code 400. `DoSimpleSearch` never returns it, and
`DoSearch` never returns it when the option layer does not; a response with
status code 400 to a search makes `DoSimpleSearch` and `DoSearch` return the
error made from the status line of the response. -/
theorem Client.errBusinessNotFound_iff {σ Opts : Type} (client : Client σ)
    (getParameters : Opts → StringMap × Option Error)
    (hopt : ∀ o, (getParameters o).2 ≠ some errBusinessNotFound)
    (decodeS : Decoder SearchResult) (decodeB : Decoder Business)
    (term location name : GoString) (options : Opts) (w : World σ) :
    ((client.GetBusiness decodeB name w).1.2 = some errBusinessNotFound ↔
        (client.Do (client.newRequest businessArea name StringMap.nil) w).1.statusCode =
          some 400) ∧
      (client.DoSimpleSearch decodeS term location w).1.2 ≠ some errBusinessNotFound ∧
      (client.DoSearch getParameters decodeS options w).1.2 ≠ some errBusinessNotFound ∧
      (∀ r : Response, location ≠ [] →
        (client.Do (client.newRequest searchArea [] (simpleSearchParams term location)) w).1 =
          DoResult.response r →
        r.StatusCode = 400 →
        (client.DoSimpleSearch decodeS term location w).1.2 = some (Error.status r.Status)) ∧
      (∀ r : Response, (getParameters options).2 = none →
        (client.Do (client.newRequest searchArea [] (getParameters options).1) w).1 =
          DoResult.response r →
        r.StatusCode = 400 →
        (client.DoSearch getParameters decodeS options w).1.2 =
          some (Error.status r.Status)) := by
  refine ⟨?_, ?_, ?_, ?_, ?_⟩
  · rw [Client.GetBusiness_eq]
    generalize (client.Do (client.newRequest businessArea name StringMap.nil) w).1 = res
    rcases res with r | ⟨(_ | r), e⟩
    · by_cases h4 : r.StatusCode = 400
      · simp [h4, DoResult.statusCode]
      · by_cases h2 : r.StatusCode = 200
        · cases hd : (decodeB r.Body Business.zero).2 <;>
            simp [h2, hd, DoResult.statusCode, errBusinessNotFound]
        · simp [h2, h4, DoResult.statusCode, errBusinessNotFound]
    · simp [DoResult.statusCode, errBusinessNotFound]
    · by_cases h4 : r.StatusCode = 400 <;> simp [h4, DoResult.statusCode, errBusinessNotFound]
  · intro h
    by_cases hl : location = []
    · simp [Client.DoSimpleSearch, hl, errBusinessNotFound, errUnspecifiedLocation] at h
    · rw [(Client.DoSimpleSearch_of_location client decodeS term location w hl).1] at h
      rcases Client.makeRequest_err client _ _ _ _ _ _ _ h with ⟨u, hu⟩ | ⟨s, hs⟩ | ⟨m, hm⟩
      · exact absurd hu (by simp [errBusinessNotFound])
      · exact absurd hs (by simp [errBusinessNotFound])
      · exact absurd hm (by simp [errBusinessNotFound])
  · intro h
    cases hp : (getParameters options).2 with
    | some err =>
      rw [Client.DoSearch_of_error client getParameters decodeS options w err hp] at h
      exact hopt options (hp.trans h)
    | none =>
      rw [(Client.DoSearch_of_ok client getParameters decodeS options w hp).1] at h
      rcases Client.makeRequest_err client _ _ _ _ _ _ _ h with ⟨u, hu⟩ | ⟨s, hs⟩ | ⟨m, hm⟩
      · exact absurd hu (by simp [errBusinessNotFound])
      · exact absurd hs (by simp [errBusinessNotFound])
      · exact absurd hm (by simp [errBusinessNotFound])
  · intro r hl hr h4
    rw [(Client.DoSimpleSearch_of_location client decodeS term location w hl).1,
      Client.makeRequest_eq, hr]
    simp [h4]
  · intro r hp hr h4
    rw [(Client.DoSearch_of_ok client getParameters decodeS options w hp).1,
      Client.makeRequest_eq, hr]
    simp [h4]

/-- Witness of C6: the option layer is `LocationOptions.getParameters`, and the
transport answers 400 to the request for the business `does-not-exist`. -/
theorem Client.errBusinessNotFound_iff_witness :
    (∀ o, (LocationOptions.getParameters testFmtV o).2 ≠ some errBusinessNotFound) ∧
      (Client.GetBusiness (stubClient (DoResult.response ⟨str "400 Bad Request", 400, []⟩))
          (stubDecoder Business) (str "does-not-exist") stubWorld).1.2 =
        some errBusinessNotFound :=
  ⟨LocationOptions.locationParameters_ne_errBusinessNotFound testFmtV,
    (Client.errBusinessNotFound_iff
      (stubClient (DoResult.response ⟨str "400 Bad Request", 400, []⟩))
      (LocationOptions.getParameters testFmtV)
      (LocationOptions.locationParameters_ne_errBusinessNotFound testFmtV)
      (stubDecoder SearchResult) (stubDecoder Business) [] [] (str "does-not-exist")
      ⟨[], none⟩ stubWorld).1.2 rfl⟩

/-- C7, as stated, fails. A response with a status code other than 200 and 400
that the transport returns together with an error, as `Do` does for a 302
whose redirect is refused, makes `GetBusiness` return the error of the
transport and not the error made from `response.Status`. And the status code is
not returned to the caller of an operation: `GetBusiness` and `DoSimpleSearch`
return the same for the status codes 500 and 503 when `response.Status` is the
same, so that nothing computed from what they return is the status code of
every response. -/
theorem Client.remote_error_code_dropped :
    (Client.GetBusiness
        (stubClient (DoResult.failure (some ⟨str "302 Found", 302, []⟩)
          ⟨str "Get", [], str "redirect refused"⟩))
        (stubDecoder Business) (str "x") stubWorld).1.2 =
        some (Error.url ⟨str "Get", [], str "redirect refused"⟩) ∧
      (¬ ∀ (reply : DoResult) (code : Int), reply.statusCode = some code →
        code ≠ 200 → code ≠ 400 →
        ∃ s, (Client.GetBusiness (stubClient reply) (stubDecoder Business) (str "x")
          stubWorld).1.2 = some (Error.status s)) ∧
      Client.GetBusiness (stubClient (DoResult.response ⟨[], 500, []⟩))
          (stubDecoder Business) (str "x") stubWorld =
        Client.GetBusiness (stubClient (DoResult.response ⟨[], 503, []⟩))
          (stubDecoder Business) (str "x") stubWorld ∧
      (¬ ∃ codeOf : Business × Option Error → Int, ∀ r : Response,
        r.StatusCode ≠ 200 → r.StatusCode ≠ 400 →
        codeOf (Client.GetBusiness (stubClient (DoResult.response r))
          (stubDecoder Business) (str "x") stubWorld).1 = r.StatusCode) ∧
      (¬ ∃ codeOf : SearchResult × Option Error → Int, ∀ r : Response,
        r.StatusCode ≠ 200 → r.StatusCode ≠ 400 →
        codeOf (Client.DoSimpleSearch (stubClient (DoResult.response r))
          (stubDecoder SearchResult) (str "coffee") (str "Berkeley") stubWorld).1 =
          r.StatusCode) := by
  have h302 : (Client.GetBusiness
      (stubClient (DoResult.failure (some ⟨str "302 Found", 302, []⟩)
        ⟨str "Get", [], str "redirect refused"⟩))
      (stubDecoder Business) (str "x") stubWorld).1.2 =
      some (Error.url ⟨str "Get", [], str "redirect refused"⟩) := by
    rw [Client.GetBusiness_eq]
    rfl
  have hB : ∀ code : Int, code ≠ 200 → code ≠ 400 →
      (Client.GetBusiness (stubClient (DoResult.response ⟨[], code, []⟩))
        (stubDecoder Business) (str "x") stubWorld).1 =
        (Business.zero, some (Error.status [])) := by
    intro code h2 h4
    rw [Client.GetBusiness_eq]
    simp [Client.Do, stubClient, h2, h4]
  have hS : ∀ code : Int, code ≠ 200 →
      (Client.DoSimpleSearch (stubClient (DoResult.response ⟨[], code, []⟩))
        (stubDecoder SearchResult) (str "coffee") (str "Berkeley") stubWorld).1 =
        (SearchResult.zero, some (Error.status [])) := by
    intro code h2
    have hl : str "Berkeley" ≠ [] := by decide
    simp only [Client.DoSimpleSearch, if_neg hl, Client.makeRequest_eq]
    simp [Client.Do, stubClient, h2]
  refine ⟨h302, ?_, ?_, ?_, ?_⟩
  · intro h
    obtain ⟨s, hs⟩ := h (DoResult.failure (some ⟨str "302 Found", 302, []⟩)
      ⟨str "Get", [], str "redirect refused"⟩) 302 rfl (by decide) (by decide)
    rw [h302] at hs
    exact absurd (Option.some.inj hs) (by simp)
  · rw [Client.GetBusiness_eq, Client.GetBusiness_eq]
    rfl
  · rintro ⟨codeOf, h⟩
    have h1 := h ⟨[], 500, []⟩ (by decide) (by decide)
    have h2 := h ⟨[], 503, []⟩ (by decide) (by decide)
    rw [hB 500 (by decide) (by decide)] at h1
    rw [hB 503 (by decide) (by decide), h1] at h2
    exact absurd h2 (by decide)
  · rintro ⟨codeOf, h⟩
    have h1 := h ⟨[], 500, []⟩ (by decide) (by decide)
    have h2 := h ⟨[], 503, []⟩ (by decide) (by decide)
    rw [hS 500 (by decide)] at h1
    rw [hS 503 (by decide), h1] at h2
    exact absurd h2 (by decide)

/-- C7, amended. When the transport returns a response without an error and the
status code is other than 200, `makeRequest` returns to its caller, the client
operation, that status code together with the error made from
`response.Status`, and leaves the target of the decoder as it was, whatever the
body and the decoder. The message of the error is `response.Status`. With such
a response `DoSimpleSearch` and `DoSearch` return the zero record and that
error, without the status code, and so does `GetBusiness` when the status code
is not 400. When the transport returns a response together with an error,
`makeRequest` returns the status code of the response with the error of the
transport, and the operations return the zero record and the error of the
transport (`GetBusiness` when the status code is not 400). -/
theorem Client.remote_error_operations {σ Opts α : Type} (client : Client σ)
    (getParameters : Opts → StringMap × Option Error)
    (decodeS : Decoder SearchResult) (decodeB : Decoder Business) (decode : Decoder α) (v : α)
    (area id : GoString) (params : StringMap) (term location name : GoString)
    (options : Opts) (w : World σ) (r : Response) (h200 : r.StatusCode ≠ 200) :
    ((client.Do (client.newRequest area id params) w).1 = DoResult.response r →
        client.makeRequest area id params decode v w =
          ((r.StatusCode, some (Error.status r.Status), v),
            (client.Do (client.newRequest area id params) w).2)) ∧
      (Error.status r.Status).message = r.Status ∧
      (r.StatusCode ≠ 400 →
        (client.Do (client.newRequest businessArea name StringMap.nil) w).1 =
          DoResult.response r →
        client.GetBusiness decodeB name w =
          ((Business.zero, some (Error.status r.Status)),
            (client.Do (client.newRequest businessArea name StringMap.nil) w).2)) ∧
      (location ≠ [] →
        (client.Do (client.newRequest searchArea [] (simpleSearchParams term location)) w).1 =
          DoResult.response r →
        client.DoSimpleSearch decodeS term location w =
          ((SearchResult.zero, some (Error.status r.Status)),
            (client.Do
              (client.newRequest searchArea [] (simpleSearchParams term location)) w).2)) ∧
      ((getParameters options).2 = none →
        (client.Do (client.newRequest searchArea [] (getParameters options).1) w).1 =
          DoResult.response r →
        client.DoSearch getParameters decodeS options w =
          ((SearchResult.zero, some (Error.status r.Status)),
            (client.Do (client.newRequest searchArea [] (getParameters options).1) w).2)) ∧
      (∀ (r2 : Response) (e : UrlError),
        (client.Do (client.newRequest area id params) w).1 = DoResult.failure (some r2) e →
        client.makeRequest area id params decode v w =
          ((r2.StatusCode, some (Error.url e), v),
            (client.Do (client.newRequest area id params) w).2)) ∧
      (∀ (r2 : Response) (e : UrlError), r2.StatusCode ≠ 400 →
        (client.Do (client.newRequest businessArea name StringMap.nil) w).1 =
          DoResult.failure (some r2) e →
        client.GetBusiness decodeB name w =
          ((Business.zero, some (Error.url e)),
            (client.Do (client.newRequest businessArea name StringMap.nil) w).2)) ∧
      (∀ (r2 : Response) (e : UrlError), location ≠ [] →
        (client.Do (client.newRequest searchArea [] (simpleSearchParams term location)) w).1 =
          DoResult.failure (some r2) e →
        client.DoSimpleSearch decodeS term location w =
          ((SearchResult.zero, some (Error.url e)),
            (client.Do
              (client.newRequest searchArea [] (simpleSearchParams term location)) w).2)) ∧
      (∀ (r2 : Response) (e : UrlError), (getParameters options).2 = none →
        (client.Do (client.newRequest searchArea [] (getParameters options).1) w).1 =
          DoResult.failure (some r2) e →
        client.DoSearch getParameters decodeS options w =
          ((SearchResult.zero, some (Error.url e)),
            (client.Do (client.newRequest searchArea [] (getParameters options).1) w).2)) := by
  refine ⟨?_, rfl, ?_, ?_, ?_, ?_, ?_, ?_, ?_⟩
  · intro hr
    rw [Client.makeRequest_eq, hr]
    simp [h200]
  · intro h400 hr
    rw [Client.GetBusiness_eq, hr]
    simp [h200, h400]
  · intro hl hr
    simp only [Client.DoSimpleSearch, if_neg hl, Client.makeRequest_eq, hr]
    simp [h200]
  · intro hp hr
    simp only [Client.DoSearch, hp, Client.makeRequest_eq, hr]
    simp [h200]
  · intro r2 e hr
    rw [Client.makeRequest_eq, hr]
  · intro r2 e h400 hr
    rw [Client.GetBusiness_eq, hr]
    simp [h400]
  · intro r2 e hl hr
    simp only [Client.DoSimpleSearch, if_neg hl, Client.makeRequest_eq, hr]
  · intro r2 e hp hr
    simp only [Client.DoSearch, hp, Client.makeRequest_eq, hr]

/-- Witness of C7: a search answered with 503 and the body `upstream
overloaded`, and a detail request answered with 500. -/
theorem Client.remote_error_operations_witness :
    (503 : Int) ≠ 200 ∧ str "San Francisco, CA" ≠ [] ∧
      Client.DoSimpleSearch
          (stubClient (DoResult.response
            ⟨str "503 Service Unavailable", 503, str "upstream overloaded"⟩))
          (stubDecoder SearchResult) (str "coffee") (str "San Francisco, CA") stubWorld =
        ((SearchResult.zero, some (Error.status (str "503 Service Unavailable"))),
          (Client.Do
            (stubClient (DoResult.response
              ⟨str "503 Service Unavailable", 503, str "upstream overloaded"⟩))
            (Client.newRequest
              (stubClient (DoResult.response
                ⟨str "503 Service Unavailable", 503, str "upstream overloaded"⟩))
              searchArea [] (simpleSearchParams (str "coffee") (str "San Francisco, CA")))
            stubWorld).2) ∧
      (Client.GetBusiness
          (stubClient (DoResult.response ⟨str "500 Internal Server Error", 500, []⟩))
          (stubDecoder Business) (str "x") stubWorld).1 =
        (Business.zero, some (Error.status (str "500 Internal Server Error"))) :=
  ⟨by decide, by decide,
    (Client.remote_error_operations
      (stubClient (DoResult.response
        ⟨str "503 Service Unavailable", 503, str "upstream overloaded"⟩))
      (LocationOptions.getParameters testFmtV) (stubDecoder SearchResult)
      (stubDecoder Business) (stubDecoder Unit) () searchArea [] StringMap.nil (str "coffee")
      (str "San Francisco, CA") [] ⟨[], none⟩ stubWorld
      ⟨str "503 Service Unavailable", 503, str "upstream overloaded"⟩
      (by decide)).2.2.2.1 (by decide) rfl,
    congrArg Prod.fst
      ((Client.remote_error_operations
        (stubClient (DoResult.response ⟨str "500 Internal Server Error", 500, []⟩))
        (LocationOptions.getParameters testFmtV) (stubDecoder SearchResult)
        (stubDecoder Business) (stubDecoder Unit) () searchArea [] StringMap.nil []
        [] (str "x") ⟨[], none⟩ stubWorld
        ⟨str "500 Internal Server Error", 500, []⟩
        (by decide)).2.2.1 (by decide) rfl)⟩

/-- C8. When the transport fails without a response, `makeRequest` returns the
status code 500 and the error of the transport, and `GetBusiness`,
`DoSimpleSearch` and `DoSearch` return the zero record and that same error. The
state after the operation is the state after the one call of the transport, so
the requests handed to the transport are those before and this one. -/
theorem Client.transport_failure {σ Opts α : Type} (client : Client σ)
    (getParameters : Opts → StringMap × Option Error)
    (decodeS : Decoder SearchResult) (decodeB : Decoder Business) (decode : Decoder α) (v : α)
    (area id : GoString) (params : StringMap) (term location name : GoString)
    (options : Opts) (w : World σ) (e : UrlError) :
    ((client.Do (client.newRequest area id params) w).1 = DoResult.failure none e →
        client.makeRequest area id params decode v w =
          ((500, some (Error.url e), v),
            (client.Do (client.newRequest area id params) w).2)) ∧
      ((client.Do (client.newRequest businessArea name StringMap.nil) w).1 =
          DoResult.failure none e →
        client.GetBusiness decodeB name w =
          ((Business.zero, some (Error.url e)),
            (client.Do (client.newRequest businessArea name StringMap.nil) w).2)) ∧
      (location ≠ [] →
        (client.Do (client.newRequest searchArea [] (simpleSearchParams term location)) w).1 =
          DoResult.failure none e →
        client.DoSimpleSearch decodeS term location w =
          ((SearchResult.zero, some (Error.url e)),
            (client.Do
              (client.newRequest searchArea [] (simpleSearchParams term location)) w).2)) ∧
      ((getParameters options).2 = none →
        (client.Do (client.newRequest searchArea [] (getParameters options).1) w).1 =
          DoResult.failure none e →
        client.DoSearch getParameters decodeS options w =
          ((SearchResult.zero, some (Error.url e)),
            (client.Do (client.newRequest searchArea [] (getParameters options).1) w).2)) ∧
      (∀ request, (client.Do request w).2.calls = w.calls ++ [request]) := by
  refine ⟨?_, ?_, ?_, ?_, fun _ => rfl⟩
  · intro hr
    rw [Client.makeRequest_eq, hr]
  · intro hr
    rw [Client.GetBusiness_eq, hr]
  · intro hl hr
    simp only [Client.DoSimpleSearch, if_neg hl, Client.makeRequest_eq, hr]
  · intro hp hr
    simp only [Client.DoSearch, hp, Client.makeRequest_eq, hr]

/-- Witness of C8: a transport that fails every request without a response. -/
theorem Client.transport_failure_witness :
    Client.GetBusiness
        (stubClient (DoResult.failure none ⟨str "Get", [], str "connection refused"⟩))
        (stubDecoder Business) (str "x") stubWorld =
      ((Business.zero, some (Error.url ⟨str "Get", [], str "connection refused"⟩)),
        (Client.Do
          (stubClient (DoResult.failure none ⟨str "Get", [], str "connection refused"⟩))
          (Client.newRequest
            (stubClient (DoResult.failure none ⟨str "Get", [], str "connection refused"⟩))
            businessArea (str "x") StringMap.nil)
          stubWorld).2) :=
  (Client.transport_failure
    (stubClient (DoResult.failure none ⟨str "Get", [], str "connection refused"⟩))
    (LocationOptions.getParameters testFmtV) (stubDecoder SearchResult) (stubDecoder Business)
    (stubDecoder Unit) () searchArea [] StringMap.nil [] [] (str "x") ⟨[], none⟩ stubWorld
    ⟨str "Get", [], str "connection refused"⟩).2.1 rfl

theorem CoordinateOptions.coordinateParameters_nodup (fmtV : GoFloat64 → GoString)
    (o : CoordinateOptions) : (o.getParameters fmtV).1.keys.Nodup := by
  have h := str_latitude_ne_longitude
  unfold CoordinateOptions.getParameters
  split <;> simp [StringMap.keys, StringMap.entries, Entries.keys, Entries.set, h]

theorem LocationOptions.locationParameters_nodup (fmtV : GoFloat64 → GoString)
    (o : LocationOptions) : (o.getParameters fmtV).1.keys.Nodup := by
  have h1 := str_latitude_ne_longitude
  have h2 := str_location_ne_latitude
  have h3 := str_location_ne_longitude
  obtain ⟨loc, hint⟩ := o
  cases hint with
  | none =>
    by_cases hl : loc = [] <;>
      simp [LocationOptions.getParameters, LocationOptions.coordinatesProvided, hl,
        StringMap.keys, StringMap.entries, Entries.keys, Entries.set]
  | some c =>
    obtain ⟨⟨lat, a⟩, ⟨long, b⟩⟩ := c
    by_cases hl : loc = [] <;> cases a <;> cases b <;>
      simp [LocationOptions.getParameters, LocationOptions.coordinatesProvided, hl,
        StringMap.keys, StringMap.entries, Entries.keys, Entries.set, h1, h2, h3, h1.symm,
        h2.symm, h3.symm]

/-- C9. For every parameter map (a Go map, hence with distinct keys; so the nil
map, the empty map and the maps that the option layer returns, whose keys are
distinct), the query string of the request that `makeRequest` hands to the
transport is parsed by `url.ParseQuery` without error into the keys of the map,
each key with the one value that the map gives it. The query string is the same
for every order in which the `range` loop visits the entries of the map. -/
theorem Client.newRequest_query_roundtrip {σ : Type} (client : Client σ) (area id : GoString)
    (params : StringMap) (hnd : params.keys.Nodup) :
    (∃ vals, ParseQuery (client.newRequest area id params).URL.RawQuery = (vals, none) ∧
        (∀ k, Entries.get vals k = (params.get k).map (fun v => [v])) ∧
        (∀ k, k ∈ Entries.keys vals ↔ k ∈ params.keys)) ∧
      (∀ params' : StringMap, params'.entries.Perm params.entries →
        (client.newRequest area id params').URL.RawQuery =
          (client.newRequest area id params).URL.RawQuery) ∧
      (∀ (α : Type) (decode : Decoder α) (v : α) (w : World σ),
        (client.makeRequest area id params decode v w).2.calls =
          w.calls ++ [client.newRequest area id params]) ∧
      StringMap.nil.keys.Nodup ∧ (StringMap.make []).keys.Nodup ∧
      (∀ (fmtV : GoFloat64 → GoString) (o : CoordinateOptions),
        (o.getParameters fmtV).1.keys.Nodup) ∧
      (∀ (fmtV : GoFloat64 → GoString) (o : LocationOptions),
        (o.getParameters fmtV).1.keys.Nodup) := by
  refine ⟨Client.newRequest_ParseQuery client area id params hnd, ?_, ?_, ?_, ?_,
    CoordinateOptions.coordinateParameters_nodup, LocationOptions.locationParameters_nodup⟩
  · intro params' hperm
    exact Client.newRequest_RawQuery_perm client area id params params' hnd hperm
  · intro α decode v w
    rw [Client.makeRequest_world]
    rfl
  · simp [StringMap.keys, StringMap.entries, Entries.keys]
  · simp [StringMap.keys, StringMap.entries, Entries.keys]

/-- Witness of C9: the map that `LocationOptions.getParameters` returns for the
location `Berkeley` with the test coordinates as hint. -/
theorem Client.newRequest_query_roundtrip_witness :
    (LocationOptions.getParameters testFmtV
        ⟨str "Berkeley", some testCoordinateOptions⟩).1.keys.Nodup ∧
      ∃ vals,
        ParseQuery
            (Client.newRequest (stubClient (DoResult.response ⟨str "200 OK", 200, []⟩))
              searchArea []
              (LocationOptions.getParameters testFmtV
                ⟨str "Berkeley", some testCoordinateOptions⟩).1).URL.RawQuery =
          (vals, none) ∧
        (∀ k, Entries.get vals k =
          ((LocationOptions.getParameters testFmtV
            ⟨str "Berkeley", some testCoordinateOptions⟩).1.get k).map (fun v => [v])) ∧
        (∀ k, k ∈ Entries.keys vals ↔
          k ∈ (LocationOptions.getParameters testFmtV
            ⟨str "Berkeley", some testCoordinateOptions⟩).1.keys) :=
  ⟨by decide,
    (Client.newRequest_query_roundtrip (stubClient (DoResult.response ⟨str "200 OK", 200, []⟩))
      searchArea []
      (LocationOptions.getParameters testFmtV ⟨str "Berkeley", some testCoordinateOptions⟩).1
      (by decide)).1⟩

/-- C10, as the code behaves. For a detail request answered with status 200,
`GetBusiness` returns what the decoder makes of the body in a target of type
`Business`: a `Business` record, which has neither hours nor a claimed flag. The
record `BusinessDetail` is not produced. -/
theorem Client.GetBusiness_returns_Business (decode : Decoder Business)
    (name body : GoString) :
    (Client.GetBusiness (stubClient (DoResult.response ⟨str "200 OK", 200, body⟩)) decode name
        stubWorld).1 =
      match (decode body Business.zero).2 with
      | some msg => (Business.zero, some (Error.json msg))
      | none => ((decode body Business.zero).1, none) := by
  rw [Client.GetBusiness_eq]
  simp [Client.Do, stubClient]

end Yelp
